import Mathlib

/-!
# MindBridge chat widget: a verification development

Shallow embedding of the two chat controllers of the repository,
`src/static/script.js` (the full controller: processing flag, request timeout,
history persisted in `localStorage`) and `src/script.js` (the minimal
controller), together with the platform operations they call
(`String.prototype.trim`, `String.prototype.replace` with a global regular
expression, `JSON.stringify`, `JSON.parse`, `fetch`, `setTimeout`).

Conventions of the embedding.

* A JavaScript string is a Lean `String`, a sequence of Unicode scalar values;
  an unpaired surrogate that a JSON escape denotes is read as U+FFFD.
* The document is a tree of elements and texts. The HTML parser of the
  browser, which turns a markup assigned to `innerHTML` into nodes, is a
  field of the state: every property is proved for every parser. A reference
  parser for well-formed markup serves at the concrete inputs. The page
  around `#chat-messages` is taken to hold no element with the id
  `typing-indicator`.
* A JavaScript Number is carried as the JSON literal that denoted it; the
  controllers never compute with numbers that reach the state, and
  Number-to-String canonicalisation is not modelled.
* An `async` method is split at its `await`: a `...Start` function runs the
  synchronous prefix and a `...Resume` function runs the continuation on the
  behaviour of the network. A thrown exception is the `error` case of `Except`.
* `localStorage.setItem` is taken to succeed (no quota), the clock is an
  argument, and cosmetic effects (scrolling, animation, focus, console
  output, textarea height, toasts) are left out of the state.
-/

namespace MindBridge

/-! ## Strings -/

/-- WhiteSpace and LineTerminator code points of ECMAScript: what
`String.prototype.trim` strips and what the class `\s` matches. -/
def isJsSpace (c : Char) : Bool :=
  c.toNat == 0x09 || c.toNat == 0x0A || c.toNat == 0x0B || c.toNat == 0x0C ||
  c.toNat == 0x0D || c.toNat == 0x20 || c.toNat == 0xA0 || c.toNat == 0x1680 ||
  (0x2000 ≤ c.toNat && c.toNat ≤ 0x200A) || c.toNat == 0x2028 || c.toNat == 0x2029 ||
  c.toNat == 0x202F || c.toNat == 0x205F || c.toNat == 0x3000 || c.toNat == 0xFEFF

/-- Leading white space removed. -/
def trimStart (cs : List Char) : List Char := cs.dropWhile isJsSpace

/-- Trailing white space removed. -/
def trimEnd (cs : List Char) : List Char := (cs.reverse.dropWhile isJsSpace).reverse

/-- The method `String.prototype.trim`. -/
def trim (s : String) : String := String.mk (trimEnd (trimStart s.data))

/-! ## JavaScript values and errors -/

/-- The JavaScript values that can reach the controller: `undefined` and the
values `JSON.parse` produces. An object is its list of own properties in
property order. -/
inductive JsVal where
  | undefined
  | null
  | bool (b : Bool)
  | num (lit : String)
  | str (s : String)
  | arr (items : List JsVal)
  | obj (props : List (String × JsVal))

/-- A thrown JavaScript error: its `name` and its `message`. -/
structure JsError where
  name : String
  message : String
deriving DecidableEq, Repr

/-! ## JSON.stringify -/

/-- Lower-case hexadecimal digit of a number below sixteen. -/
def hexDigit (n : Nat) : Char :=
  if n < 10 then Char.ofNat (48 + n) else Char.ofNat (87 + n)

/-- One character inside a JSON string literal, as `QuoteJSONString` writes it. -/
def quoteChar (c : Char) : List Char :=
  if c = '"' then ['\\', '"']
  else if c = '\\' then ['\\', '\\']
  else if c.toNat = 8 then ['\\', 'b']
  else if c.toNat = 9 then ['\\', 't']
  else if c.toNat = 10 then ['\\', 'n']
  else if c.toNat = 12 then ['\\', 'f']
  else if c.toNat = 13 then ['\\', 'r']
  else if c.toNat < 32 then
    ['\\', 'u', '0', '0', hexDigit (c.toNat / 16), hexDigit (c.toNat % 16)]
  else [c]

/-- The characters of a string, each quoted. -/
def quoteChars : List Char → List Char
  | [] => []
  | c :: cs => quoteChar c ++ quoteChars cs

/-- The operation `QuoteJSONString`: the JSON string literal of a string. -/
def quoteJSONString (s : String) : List Char :=
  '"' :: (quoteChars s.data ++ ['"'])

/-- Pieces joined with commas. -/
def joinComma : List (List Char) → List Char
  | [] => []
  | [p] => p
  | p :: q :: ps => p ++ ',' :: joinComma (q :: ps)

mutual
/-- The operation `SerializeJSONProperty` without replacer and indentation:
`none` stands for the result `undefined`. -/
def serialize : JsVal → Option (List Char)
  | .undefined => none
  | .null => some ['n', 'u', 'l', 'l']
  | .bool true => some ['t', 'r', 'u', 'e']
  | .bool false => some ['f', 'a', 'l', 's', 'e']
  | .num lit => some lit.data
  | .str s => some (quoteJSONString s)
  | .arr items => some ('[' :: (joinComma (serializeItems items) ++ [']']))
  | .obj props => some ('{' :: (joinComma (serializeProps props) ++ ['}']))
/-- The elements of an array: `undefined` is written `null`. -/
def serializeItems : List JsVal → List (List Char)
  | [] => []
  | v :: vs => (serialize v).getD ['n', 'u', 'l', 'l'] :: serializeItems vs
/-- The members of an object: a property whose value is `undefined` is skipped. -/
def serializeProps : List (String × JsVal) → List (List Char)
  | [] => []
  | (k, v) :: ps =>
    match serialize v with
    | none => serializeProps ps
    | some text => (quoteJSONString k ++ ':' :: text) :: serializeProps ps
end

/-- The function `JSON.stringify` of one argument; `none` is `undefined`. -/
def JSONstringify (v : JsVal) : Option String := (serialize v).map String.mk

/-! ## JSON.parse -/

/-- JSON white space skipped: space, tab, line feed, carriage return. -/
def skipWs : List Char → List Char
  | [] => []
  | c :: cs => if c = ' ' ∨ c = '\t' ∨ c = '\n' ∨ c = '\r' then skipWs cs else c :: cs

/-- Value of a hexadecimal digit, either case. -/
def hexVal (c : Char) : Option Nat :=
  if 48 ≤ c.toNat ∧ c.toNat ≤ 57 then some (c.toNat - 48)
  else if 97 ≤ c.toNat ∧ c.toNat ≤ 102 then some (c.toNat - 87)
  else if 65 ≤ c.toNat ∧ c.toNat ≤ 70 then some (c.toNat - 55)
  else none

/-- Four hexadecimal digits read as a code unit. -/
def parseHex4 : List Char → Option (Nat × List Char)
  | a :: b :: c :: d :: rest =>
    match hexVal a, hexVal b, hexVal c, hexVal d with
    | some x, some y, some z, some w => some (((x * 16 + y) * 16 + z) * 16 + w, rest)
    | _, _, _, _ => none
  | _ => none

/-- The character that stands for an unpaired surrogate, a code unit that a
sequence of scalar values cannot hold: U+FFFD. -/
def unpairedSurrogate : Char := Char.ofNat 0xFFFD

/-- The text after `\u`: one code unit, or a surrogate pair written as two
escapes, read as one character. An escape that denotes an unpaired surrogate
is accepted, as `JSON.parse` accepts it; it is read as `unpairedSurrogate`,
and what follows it is read on its own. -/
def parseUnicodeEscape (cs : List Char) : Option (Char × List Char) :=
  match parseHex4 cs with
  | none => none
  | some (hi, rest) =>
    if 0xD800 ≤ hi ∧ hi ≤ 0xDBFF then
      match rest with
      | '\\' :: 'u' :: rest1 =>
        match parseHex4 rest1 with
        | some (lo, rest2) =>
          if 0xDC00 ≤ lo ∧ lo ≤ 0xDFFF then
            some (Char.ofNat (0x10000 + (hi - 0xD800) * 0x400 + (lo - 0xDC00)), rest2)
          else some (unpairedSurrogate, rest)
        | none => some (unpairedSurrogate, rest)
      | _ => some (unpairedSurrogate, rest)
    else if 0xDC00 ≤ hi ∧ hi ≤ 0xDFFF then some (unpairedSurrogate, rest)
    else some (Char.ofNat hi, rest)

/-- The character a one-letter escape denotes. -/
def simpleEscape (e : Char) : Option Char :=
  if e = '"' then some '"'
  else if e = '\\' then some '\\'
  else if e = '/' then some '/'
  else if e = 'b' then some (Char.ofNat 8)
  else if e = 'f' then some (Char.ofNat 12)
  else if e = 'n' then some (Char.ofNat 10)
  else if e = 'r' then some (Char.ofNat 13)
  else if e = 't' then some (Char.ofNat 9)
  else none

/-- The characters of a JSON string literal after its opening quote, up to and
including the closing quote: the string denoted and the text that follows. -/
def parseStringChars : Nat → List Char → Option (List Char × List Char)
  | 0, _ => none
  | _ + 1, [] => none
  | fuel + 1, c :: rest =>
    if c = '"' then some ([], rest)
    else if c = '\\' then
      match rest with
      | [] => none
      | e :: rest1 =>
        if e = 'u' then
          match parseUnicodeEscape rest1 with
          | none => none
          | some (ch, rest2) =>
            (parseStringChars fuel rest2).map (fun p => (ch :: p.1, p.2))
        else
          match simpleEscape e with
          | none => none
          | some ch => (parseStringChars fuel rest1).map (fun p => (ch :: p.1, p.2))
    else if c.toNat < 32 then none
    else (parseStringChars fuel rest).map (fun p => (c :: p.1, p.2))

/-- A JSON string literal after its opening quote. -/
def parseStringLit (cs : List Char) : Option (String × List Char) :=
  (parseStringChars (cs.length + 1) cs).map (fun p => (String.mk p.1, p.2))

/-- Decimal digit test. -/
def isDigit (c : Char) : Bool := 48 ≤ c.toNat && c.toNat ≤ 57

/-- The longest run of decimal digits at the front, and the rest. -/
def takeDigits : List Char → List Char × List Char
  | [] => ([], [])
  | c :: cs =>
    if isDigit c then ((takeDigits cs).1.cons c, (takeDigits cs).2) else ([], c :: cs)

/-- The integer part of a JSON number: `0`, or a non-zero digit and digits. -/
def parseIntPart : List Char → Option (List Char × List Char)
  | [] => none
  | c :: cs =>
    if c = '0' then some (['0'], cs)
    else if isDigit c then some (c :: (takeDigits cs).1, (takeDigits cs).2)
    else none

/-- The optional fraction of a JSON number: a dot and at least one digit. -/
def parseFraction : List Char → Option (List Char × List Char)
  | '.' :: cs =>
    if (takeDigits cs).1 = [] then none else some ('.' :: (takeDigits cs).1, (takeDigits cs).2)
  | cs => some ([], cs)

/-- The digits of an exponent, at least one. -/
def parseExpDigits (mark : List Char) (cs : List Char) : Option (List Char × List Char) :=
  if (takeDigits cs).1 = [] then none else some (mark ++ (takeDigits cs).1, (takeDigits cs).2)

/-- The optional exponent of a JSON number. -/
def parseExponent : List Char → Option (List Char × List Char)
  | [] => some ([], [])
  | e :: cs =>
    if e = 'e' ∨ e = 'E' then
      match cs with
      | '+' :: ds => parseExpDigits [e, '+'] ds
      | '-' :: ds => parseExpDigits [e, '-'] ds
      | ds => parseExpDigits [e] ds
    else some ([], e :: cs)

/-- The unsigned part of a JSON number literal. -/
def parseUnsigned (cs : List Char) : Option (List Char × List Char) :=
  match parseIntPart cs with
  | none => none
  | some (i, r1) =>
    match parseFraction r1 with
    | none => none
    | some (f, r2) =>
      match parseExponent r2 with
      | none => none
      | some (x, r3) => some (i ++ f ++ x, r3)

/-- A JSON number literal: its text and the text that follows. -/
def parseNumber : List Char → Option (List Char × List Char)
  | '-' :: cs => (parseUnsigned cs).map (fun p => ('-' :: p.1, p.2))
  | cs => parseUnsigned cs

/-- Decimal value of a run of digits. -/
def digitsValue (cs : List Char) : Nat := cs.foldl (fun n c => n * 10 + (c.toNat - 48)) 0

/-- The array index a property key denotes, if it is one: a canonical decimal
numeral below `2^32 - 1`. -/
def arrayIndex (k : String) : Option Nat :=
  match k.data with
  | [] => none
  | c :: cs =>
    if (c :: cs).all isDigit ∧ (c ≠ '0' ∨ cs = []) ∧ (c :: cs).length ≤ 10
        ∧ digitsValue (c :: cs) < 4294967295 then
      some (digitsValue (c :: cs))
    else none

/-- A new property placed in property order: array indices first, ascending,
then the other keys in order of creation. -/
def insertProp (k : String) (v : JsVal) : List (String × JsVal) → List (String × JsVal)
  | [] => [(k, v)]
  | (k1, v1) :: ps =>
    match arrayIndex k, arrayIndex k1 with
    | some i, some i1 => if i < i1 then (k, v) :: (k1, v1) :: ps else (k1, v1) :: insertProp k v ps
    | some _, none => (k, v) :: (k1, v1) :: ps
    | none, _ => (k1, v1) :: insertProp k v ps

/-- The value of an existing property replaced in place. -/
def replaceProp (k : String) (v : JsVal) : List (String × JsVal) → List (String × JsVal)
  | [] => []
  | (k1, v1) :: ps => if k1 = k then (k1, v) :: ps else (k1, v1) :: replaceProp k v ps

/-- The operation `CreateDataProperty` on an ordinary object. -/
def objSet (props : List (String × JsVal)) (k : String) (v : JsVal) : List (String × JsVal) :=
  if props.any (fun p => p.1 == k) then replaceProp k v props else insertProp k v props

/-- The literals `true`, `false` and `null`. -/
def parseKeyword : List Char → Option (JsVal × List Char)
  | 't' :: 'r' :: 'u' :: 'e' :: rest => some (JsVal.bool true, rest)
  | 'f' :: 'a' :: 'l' :: 's' :: 'e' :: rest => some (JsVal.bool false, rest)
  | 'n' :: 'u' :: 'l' :: 'l' :: rest => some (JsVal.null, rest)
  | _ => none

mutual
/-- A JSON value at the front of the text (no leading white space): the value
and the text that follows. The first argument bounds the nesting and the
number of elements; the length of the text is always enough. -/
def parseValue : Nat → List Char → Option (JsVal × List Char)
  | 0, _ => none
  | _ + 1, [] => none
  | fuel + 1, c :: rest =>
    if c = '"' then
      (parseStringLit rest).map (fun p => (JsVal.str p.1, p.2))
    else if c = '[' then
      match skipWs rest with
      | [] => none
      | d :: rest1 =>
        if d = ']' then some (JsVal.arr [], rest1)
        else (parseElements fuel (d :: rest1)).map (fun p => (JsVal.arr p.1, p.2))
    else if c = '{' then
      match skipWs rest with
      | [] => none
      | d :: rest1 =>
        if d = '}' then some (JsVal.obj [], rest1)
        else (parseMembers fuel (d :: rest1) []).map (fun p => (JsVal.obj p.1, p.2))
    else if c = 't' ∨ c = 'f' ∨ c = 'n' then parseKeyword (c :: rest)
    else
      (parseNumber (c :: rest)).map (fun p => (JsVal.num (String.mk p.1), p.2))
/-- The elements of a non-empty array up to and including the closing bracket. -/
def parseElements : Nat → List Char → Option (List JsVal × List Char)
  | 0, _ => none
  | fuel + 1, cs =>
    match parseValue fuel cs with
    | none => none
    | some (v, rest) =>
      match skipWs rest with
      | [] => none
      | d :: rest1 =>
        if d = ',' then (parseElements fuel (skipWs rest1)).map (fun p => (v :: p.1, p.2))
        else if d = ']' then some ([v], rest1)
        else none
/-- The members of a non-empty object up to and including the closing brace,
added to the properties read so far. -/
def parseMembers : Nat → List Char → List (String × JsVal) →
    Option (List (String × JsVal) × List Char)
  | 0, _, _ => none
  | _ + 1, [], _ => none
  | fuel + 1, c :: rest, acc =>
    if c = '"' then
      match parseStringLit rest with
      | none => none
      | some (k, rest1) =>
        match skipWs rest1 with
        | [] => none
        | d :: rest2 =>
          if d = ':' then
            match parseValue fuel (skipWs rest2) with
            | none => none
            | some (v, rest3) =>
              match skipWs rest3 with
              | [] => none
              | e :: rest4 =>
                if e = ',' then parseMembers fuel (skipWs rest4) (objSet acc k v)
                else if e = '}' then some (objSet acc k v, rest4)
                else none
          else none
    else none
end

/-- The function `JSON.parse` of one argument; `none` is a thrown `SyntaxError`. -/
def JSONparse (s : String) : Option JsVal :=
  match parseValue ((skipWs s.data).length + 1) (skipWs s.data) with
  | none => none
  | some (v, rest) => if skipWs rest = [] then some v else none

/-! ## Regular expressions and String.prototype.replace -/

/-- A pattern that matches one character. -/
inductive Atom where
  | chr (c : Char)
  | notSpace

/-- The fragment of regular expressions the controller uses: one-character
atoms, sequence, the greedy quantifiers `?` and `+` (the latter on an atom)
and capturing groups. -/
inductive Regex where
  | atom (a : Atom)
  | seq (a b : Regex)
  | opt (a : Regex)
  | plus (a : Atom)
  | group (a : Regex)

/-- Whether an atom matches a character; `notSpace` is the class `[^\s]`. -/
def Atom.accepts : Atom → Char → Bool
  | .chr c, x => x == c
  | .notSpace, x => !isJsSpace x

/-- The text consumed between two positions of the same input. -/
def consumed (s rest : List Char) : List Char := s.take (s.length - rest.length)

/-- The iterations of `a+` after the first, greedy: one more character if
possible, and the continuation on what is left; on failure one character
fewer. -/
def plusLoop {R : Type} (a : Atom) (k : List Char → Option R) : List Char → Option R
  | [] => k []
  | c :: cs =>
    if a.accepts c then
      match plusLoop a k cs with
      | some r => some r
      | none => k (c :: cs)
    else k (c :: cs)

/-- Backtracking matcher in continuation style: the expression is matched at
the front of the input, and the continuation receives the rest of the input
and the captures. Captures are recorded in order of completion. -/
def rmatch {R : Type} : Regex → List Char → List (List Char) →
    (List Char → List (List Char) → Option R) → Option R
  | .atom _, [], _, _ => none
  | .atom a, c :: cs, caps, k => if a.accepts c then k cs caps else none
  | .seq a b, s, caps, k => rmatch a s caps (fun s1 caps1 => rmatch b s1 caps1 k)
  | .opt a, s, caps, k =>
    match rmatch a s caps k with
    | some r => some r
    | none => k s caps
  | .plus _, [], _, _ => none
  | .plus a, c :: cs, caps, k =>
    if a.accepts c then plusLoop a (fun rest => k rest caps) cs else none
  | .group a, s, caps, k =>
    rmatch a s caps (fun rest caps1 => k rest (caps1 ++ [consumed s rest]))

/-- A match at the front of the input: the rest of the input and the captures. -/
def regexExec (r : Regex) (s : List Char) : Option (List Char × List (List Char)) :=
  rmatch r s [] (fun rest caps => some (rest, caps))

/-- The expression matching a word, character by character; the empty word is
not used. -/
def Regex.word : List Char → Regex
  | [] => .opt (.atom (.chr 'x'))
  | [c] => .atom (.chr c)
  | c :: d :: cs => .seq (.atom (.chr c)) (Regex.word (d :: cs))

/-- Capture number `n`, counted from one; a group that is absent gives the
empty string. -/
def capture (caps : List (List Char)) (n : Nat) : List Char := (caps.get? (n - 1)).getD []

/-- The operation `GetSubstitution` for a match without named groups: the
replacement text with `$$`, `$&`, the two context patterns, `$n` and `$nn`
expanded. -/
def getSubstitution (matched before after : List Char) (caps : List (List Char)) :
    List Char → List Char
  | [] => []
  | [c] => [c]
  | [c, d] =>
    if c = '$' then
      if d = '$' then ['$']
      else if d = '&' then matched
      else if d = Char.ofNat 96 then before
      else if d = Char.ofNat 39 then after
      else if isDigit d ∧ 1 ≤ d.toNat - 48 ∧ d.toNat - 48 ≤ caps.length then
        capture caps (d.toNat - 48)
      else ['$', d]
    else c :: getSubstitution matched before after caps [d]
  | c :: d :: e :: t =>
    if c = '$' then
      if d = '$' then '$' :: getSubstitution matched before after caps (e :: t)
      else if d = '&' then matched ++ getSubstitution matched before after caps (e :: t)
      else if d = Char.ofNat 96 then before ++ getSubstitution matched before after caps (e :: t)
      else if d = Char.ofNat 39 then after ++ getSubstitution matched before after caps (e :: t)
      else if isDigit d then
        if isDigit e ∧ 1 ≤ (d.toNat - 48) * 10 + (e.toNat - 48)
            ∧ (d.toNat - 48) * 10 + (e.toNat - 48) ≤ caps.length then
          capture caps ((d.toNat - 48) * 10 + (e.toNat - 48))
            ++ getSubstitution matched before after caps t
        else if 1 ≤ d.toNat - 48 ∧ d.toNat - 48 ≤ caps.length then
          capture caps (d.toNat - 48) ++ getSubstitution matched before after caps (e :: t)
        else '$' :: getSubstitution matched before after caps (d :: e :: t)
      else '$' :: getSubstitution matched before after caps (d :: e :: t)
    else c :: getSubstitution matched before after caps (d :: e :: t)

/-- The method `String.prototype.replace` with a global expression and a text
as replacement: the input is scanned from the left; where the expression
matches, the expanded replacement is written and the scan goes on behind the
match (one character further after an empty match); any other character is
copied. The second argument is the text already scanned. -/
def replaceLoop (r : Regex) (template : List Char) : Nat → List Char → List Char → List Char
  | 0, _, s => s
  | fuel + 1, before, s =>
    match regexExec r s with
    | none =>
      match s with
      | [] => []
      | c :: cs => c :: replaceLoop r template fuel (before ++ [c]) cs
    | some (rest, caps) =>
      getSubstitution (consumed s rest) before rest caps template ++
        (if rest.length < s.length then
          replaceLoop r template fuel (before ++ consumed s rest) rest
        else
          match s with
          | [] => []
          | c :: cs => c :: replaceLoop r template fuel (before ++ [c]) cs)

/-- The call `s.replace(r, template)` for a global expression `r`. -/
def replaceAll (r : Regex) (template : List Char) (s : List Char) : List Char :=
  replaceLoop r template (s.length + 1) [] s

/-! ## DOM, storage and network -/

/-- A node of the document tree: an element with its tag, its `id`, its
`class` and its children, or a text. Other attributes are not kept. -/
inductive Dom where
  | element (tag : String) (id : String) (className : String) (children : List Dom)
  | text (content : String)

/-- The `id` of a node, empty for a text. -/
def Dom.idOf : Dom → String
  | .element _ id _ _ => id
  | .text _ => ""

/-- The `class` of a node, empty for a text. -/
def Dom.classOf : Dom → String
  | .element _ _ className _ => className
  | .text _ => ""

mutual
/-- Whether the node or one of its descendants is an element with the id. -/
def Dom.hasId (id : String) : Dom → Bool
  | .element _ i _ children => i == id || hasId id children
  | .text _ => false
/-- Whether an element with the id is in the forest, at any depth. -/
def hasId (id : String) : List Dom → Bool
  | [] => false
  | d :: ds => d.hasId id || hasId id ds
end

mutual
/-- The node without the first element, in tree order, that bears the id:
`none` when no element bears it, `some none` when the node itself is that
element, `some (some d)` when the element was a descendant. -/
def Dom.removeFirst (id : String) : Dom → Option (Option Dom)
  | .element tag i c children =>
    if i = id then some none
    else
      match removeFirst id children with
      | some children1 => some (some (.element tag i c children1))
      | none => none
  | .text _ => none
/-- The forest without the first element, in tree order, that bears the id:
what `getElementById(id).remove()` leaves; `none` when no element bears it. -/
def removeFirst (id : String) : List Dom → Option (List Dom)
  | [] => none
  | d :: ds =>
    match d.removeFirst id with
    | some none => some ds
    | some (some d1) => some (d1 :: ds)
    | none =>
      match removeFirst id ds with
      | some ds1 => some (d :: ds1)
      | none => none
end

/-- The characters before the first that satisfies the test, and the rest. -/
def cutAt (stop : Char → Bool) : List Char → List Char × List Char
  | [] => ([], [])
  | c :: cs => if stop c then ([], c :: cs) else (c :: (cutAt stop cs).1, (cutAt stop cs).2)

/-- The value of an attribute in a list of attributes, empty when absent. -/
def attrValue (name : String) : List (String × String) → String
  | [] => ""
  | (n, v) :: rest => if n = name then v else attrValue name rest

/-- The attributes of a start tag up to and including its `>`: names with
values in double quotes, or bare names. -/
def refAttrs : Nat → List Char → List (String × String) × List Char
  | 0, cs => ([], cs)
  | _ + 1, [] => ([], [])
  | fuel + 1, c :: cs =>
    if c = '>' then ([], cs)
    else if c = ' ' ∨ c = '\n' ∨ c = '\t' ∨ c = '/' then refAttrs fuel cs
    else
      match cutAt (fun x => x = '=' ∨ x = ' ' ∨ x = '>' ∨ x = '\n') (c :: cs) with
      | (name, '=' :: '"' :: rest) =>
        ((String.mk name, String.mk (cutAt (fun x => x = '"') rest).1)
            :: (refAttrs fuel ((cutAt (fun x => x = '"') rest).2.drop 1)).1,
          (refAttrs fuel ((cutAt (fun x => x = '"') rest).2.drop 1)).2)
      | (name, rest) => ((String.mk name, "") :: (refAttrs fuel rest).1, (refAttrs fuel rest).2)

/-- The text of a start tag after its name, and what follows the name. -/
def tagRest (cs : List Char) : List Char :=
  (cutAt (fun x => x = ' ' ∨ x = '>' ∨ x = '\n' ∨ x = '/') cs).2

/-- The sibling nodes at the front of a markup, up to the end tag that closes
their parent or to the end of the text, and what follows that end tag. -/
def refNodes : Nat → List Char → List Dom × List Char
  | 0, cs => ([], cs)
  | _ + 1, [] => ([], [])
  | fuel + 1, c :: cs =>
    if c = '<' then
      match cs with
      | '/' :: rest => ([], (cutAt (fun x => x = '>') rest).2.drop 1)
      | _ =>
        (Dom.element
            (String.mk (cutAt (fun x => x = ' ' ∨ x = '>' ∨ x = '\n' ∨ x = '/') cs).1)
            (attrValue "id" (refAttrs cs.length (tagRest cs)).1)
            (attrValue "class" (refAttrs cs.length (tagRest cs)).1)
            (refNodes fuel (refAttrs cs.length (tagRest cs)).2).1
          :: (refNodes fuel (refNodes fuel (refAttrs cs.length (tagRest cs)).2).2).1,
          (refNodes fuel (refNodes fuel (refAttrs cs.length (tagRest cs)).2).2).2)
    else
      (Dom.text (String.mk (cutAt (fun x => x = '<') (c :: cs)).1)
          :: (refNodes fuel (cutAt (fun x => x = '<') (c :: cs)).2).1,
        (refNodes fuel (cutAt (fun x => x = '<') (c :: cs)).2).2)

/-- A reference parser of HTML fragments, for well-formed markup: elements
with start and end tags, attributes in double quotes, and text. It stands for
the parser of the browser at the concrete inputs of this development. -/
def refParse (source : String) : List Dom := (refNodes (source.length + 1) source.data).1

/-- A call of `fetch`. -/
structure Request where
  url : String
  method : String
  contentType : String
  body : String
  hasSignal : Bool
deriving DecidableEq, Repr

/-- How the body of a response arrives: complete at some time, as a text, or
lost on the way. Times are milliseconds counted from the call of `fetch`. -/
inductive BodyBehaviour where
  | arrives (doneAt : Nat) (text : String)
  | fails (failAt : Nat)
deriving DecidableEq, Repr

/-- What the network does with a request: it fails before any response, or
the status line and headers of a response arrive at some time, followed by
the body. -/
inductive NetBehaviour where
  | fails (failAt : Nat)
  | responds (headersAt : Nat) (status : Nat) (body : BodyBehaviour)
deriving DecidableEq, Repr

/-- One exchange with the server: the behaviour of the network, and which of
a timer and a network event due at the same millisecond runs first. -/
structure Exchange where
  net : NetBehaviour
  timerFirstOnTie : Bool
deriving DecidableEq, Repr

/-- The readings of the clock one step of a method takes:
`new Date().toLocaleTimeString()` and `new Date().toISOString()`. -/
structure Clock where
  localeTime : String
  iso : String
deriving DecidableEq, Repr

/-- The property `response.ok`: a status from 200 to 299. -/
def statusOk (status : Nat) : Bool := 200 ≤ status && status ≤ 299

/-- Own property lookup in a property list. -/
def lookupProp (k : String) : List (String × JsVal) → JsVal
  | [] => .undefined
  | (k1, v) :: ps => if k1 = k then v else lookupProp k ps

/-- The expression `data.response`: a `TypeError` on `null` and `undefined`,
the own property of an object, and `undefined` on any other value (no
prototype of these values has a property of that name). -/
def getResponse : JsVal → Except JsError JsVal
  | .null => .error ⟨"TypeError", "Cannot read properties of null (reading 'response')"⟩
  | .undefined =>
    .error ⟨"TypeError", "Cannot read properties of undefined (reading 'response')"⟩
  | .obj props => .ok (lookupProp "response" props)
  | _ => .ok .undefined

/-- The call `JSON.stringify(\x7bmessage\x7d)` that makes the request body. -/
def requestBody (message : String) : String :=
  (JSONstringify (.obj [("message", .str message)])).getD "undefined"

/-- The call `response.json()` on a body that arrived: the parsed text, or a
`SyntaxError`. -/
def responseJson (text : String) : Except JsError JsVal :=
  match JSONparse text with
  | some v => .ok v
  | none => .error ⟨"SyntaxError", "Unexpected token in JSON"⟩

/-- The chat after `document.getElementById('typing-indicator')` and `remove()`
on what it finds: the first element in tree order that bears the id, at any
depth, is taken out with its descendants; without such an element the chat
stays as it is. -/
def removeTyping (nodes : List Dom) : List Dom :=
  (removeFirst "typing-indicator" nodes).getD nodes

/-- The fixed text shown when a request fails, the same in both controllers. -/
def apology : String := "Sorry, I'm having trouble connecting. Please try again. 😊"

/-! ## The controller of src/static/script.js -/

namespace Static


/-- The expression `/(https?:\/\/[^\s]+)/g` of `formatMessage`. -/
def urlRegex : Regex :=
  .group (.seq (Regex.word "http".data)
    (.seq (.opt (.atom (.chr 's')))
      (.seq (Regex.word "://".data) (.plus .notSpace))))

/-- The replacement text of `formatMessage`. -/
def anchorTemplate : List Char :=
  "<a href=\"$1\" target=\"_blank\" rel=\"noopener\">$1</a>".data

/-- The method `formatMessage` on a string. -/
def formatText (content : String) : String :=
  String.mk (replaceAll urlRegex anchorTemplate content.data)

/-- The method `formatMessage(content)`: `content.replace` exists only on a
string; on any other value the call throws a `TypeError`. -/
def formatMessage : JsVal → Except JsError String
  | .str s => .ok (formatText s)
  | .undefined => .error ⟨"TypeError", "Cannot read properties of undefined (reading 'replace')"⟩
  | .null => .error ⟨"TypeError", "Cannot read properties of null (reading 'replace')"⟩
  | _ => .error ⟨"TypeError", "content.replace is not a function"⟩

/-- The state of a `MindBridgeChat` and of the page around it: the HTML parser
of the browser, the two fields of the object, the value of `#user-input`,
the `disabled` flag of `#send-btn`, the children of `#chat-messages`, the item
`mindbridge_chat_history` of `localStorage`, and the chat requests issued so
far. -/
structure Chat where
  parseHtml : String → List Dom
  isProcessing : Bool
  chatHistory : JsVal
  userInput : String
  sendDisabled : Bool
  chatMessages : List Dom
  storage : Option String
  requests : List Request

/-- The delay of the abort timer of `getAIResponse`, in milliseconds. -/
def timeoutMs : Nat := 10000

/-- The cap on the history in `saveToHistory`. -/
def historyCap : Nat := 100

/-- The read `this.chatHistory.length` in `addMessage`: a `TypeError` on
`null` and `undefined`, a value (only used for a style) otherwise. -/
def readLength : JsVal → Except JsError Unit
  | .null => .error ⟨"TypeError", "Cannot read properties of null (reading 'length')"⟩
  | .undefined =>
    .error ⟨"TypeError", "Cannot read properties of undefined (reading 'length')"⟩
  | _ => .ok ()

/-- The markup `addMessage` assigns to `innerHTML`. -/
def messageHtml (type : String) (formatted : String) (timestamp : String) : String :=
  "\n            <div class=\"message-content\">\n                <strong>"
    ++ (if type = "user" then "You" else "MindBridge") ++ ":</strong> " ++ formatted
    ++ "\n                <span class=\"message-time\">" ++ timestamp
    ++ "</span>\n            </div>\n        "

/-- The element `addMessage` builds for a formatted content: a `div` with the
class of the sender, whose children are what the markup parses to. -/
def messageNode (parseHtml : String → List Dom) (type : String) (formatted : String)
    (timestamp : String) : Dom :=
  .element "div" "" ("message " ++ type ++ "-message")
    (parseHtml (messageHtml type formatted timestamp))

/-- The method `addMessage(content, type)`: the content is formatted, the
length of the history is read, and then the element is appended; a throw in
the first two steps leaves the page as it was. -/
def addMessage (content : JsVal) (type : String) (now : Clock) (s : Chat) :
    Except JsError Chat :=
  match formatMessage content with
  | .error e => .error e
  | .ok formatted =>
    match readLength s.chatHistory with
    | .error e => .error e
    | .ok _ =>
      .ok { s with chatMessages :=
        s.chatMessages ++ [messageNode s.parseHtml type formatted now.localeTime] }

/-- The markup `showTypingIndicator` assigns to `innerHTML`. -/
def typingHtml : String :=
  "\n            <div class=\"message-content\">\n                <strong>MindBridge:</strong> \n"
    ++ "                <span class=\"typing-indicator\">\n"
    ++ "                    <span class=\"typing-dot\"></span>\n"
    ++ "                    <span class=\"typing-dot\"></span>\n"
    ++ "                    <span class=\"typing-dot\"></span>\n"
    ++ "                </span>\n            </div>\n        "

/-- The element `showTypingIndicator` appends: a `div` with the id
`typing-indicator`. -/
def typingNode (parseHtml : String → List Dom) : Dom :=
  .element "div" "typing-indicator" "message bot-message" (parseHtml typingHtml)

/-- The method `showTypingIndicator`. -/
def showTypingIndicator (s : Chat) : Chat :=
  { s with chatMessages := s.chatMessages ++ [typingNode s.parseHtml] }

/-- The method `hideTypingIndicator`. -/
def hideTypingIndicator (s : Chat) : Chat :=
  { s with chatMessages := removeTyping s.chatMessages }

/-- The markup `showError` assigns to `innerHTML`. -/
def errorHtml (message : String) : String :=
  "\n            <div class=\"message-content\" style=\"background: "
    ++ "linear-gradient(135deg, #ffe6e6, #ffcccc);\">\n                <strong>MindBridge:</strong> "
    ++ message ++ "\n            </div>\n        "

/-- The element `showError` appends. -/
def errorNode (parseHtml : String → List Dom) (message : String) : Dom :=
  .element "div" "" "message bot-message" (parseHtml (errorHtml message))

/-- The method `showError(message)`. -/
def showError (message : String) (s : Chat) : Chat :=
  { s with chatMessages := s.chatMessages ++ [errorNode s.parseHtml message] }

/-- The object `saveToHistory` pushes. -/
def turn (userMessage : String) (botResponse : JsVal) (iso : String) : JsVal :=
  .obj [("user", .str userMessage), ("bot", botResponse), ("timestamp", .str iso)]

/-- The history after `push` and the conditional `shift` of `saveToHistory`. -/
def pushCapped (h : List JsVal) (t : JsVal) : List JsVal :=
  if (h ++ [t]).length > historyCap then (h ++ [t]).tail else h ++ [t]

/-- The method `saveToHistory(userMessage, botResponse)`: `push` exists only
on an array; the entry is appended, the first entry is dropped when the
length has passed the cap, and the whole history is written to the store. -/
def saveToHistory (userMessage : String) (botResponse : JsVal) (now : Clock) (s : Chat) :
    Except JsError Chat :=
  match s.chatHistory with
  | .arr h =>
    .ok { s with
      chatHistory := .arr (pushCapped h (turn userMessage botResponse now.iso))
      storage := some ((JSONstringify
        (.arr (pushCapped h (turn userMessage botResponse now.iso)))).getD "undefined") }
  | .null => .error ⟨"TypeError", "Cannot read properties of null (reading 'push')"⟩
  | .undefined => .error ⟨"TypeError", "Cannot read properties of undefined (reading 'push')"⟩
  | _ => .error ⟨"TypeError", "this.chatHistory.push is not a function"⟩

/-- The method `loadChatHistory`: a stored text that is present and not empty
is parsed and becomes the history, whatever value it denotes; a text that
does not parse leaves the history as it is. -/
def loadChatHistory (s : Chat) : Chat :=
  match s.storage with
  | none => s
  | some saved =>
    if saved = "" then s
    else
      match JSONparse saved with
      | some v => { s with chatHistory := v }
      | none => s

/-- The constructor on a page: the fields are set and `initializeApp` loads the
history. The page gives the parser of its browser, the input value, the button
flag, the messages already in the chat and the stored item. -/
def constructor (parseHtml : String → List Dom) (userInput : String) (sendDisabled : Bool)
    (chatMessages : List Dom) (storage : Option String) : Chat :=
  loadChatHistory
    { parseHtml := parseHtml, isProcessing := false, chatHistory := .arr [],
      userInput := userInput, sendDisabled := sendDisabled, chatMessages := chatMessages,
      storage := storage, requests := [] }

/-- Whether the abort timer runs before a network event due at time `t`. -/
def timerFirst (x : Exchange) (t : Nat) : Bool :=
  timeoutMs < t || (t == timeoutMs && x.timerFirstOnTie)

/-- The request `getAIResponse` issues. -/
def chatRequest (message : String) : Request :=
  ⟨"/api/chat", "POST", "application/json", requestBody message, true⟩

/-- The method `getAIResponse(message)` on an exchange; the call of `fetch` it
starts with is recorded by `sendMessageStart`. The timer is armed
for `timeoutMs`; if it runs before `fetch` settles, `fetch` rejects with an
`AbortError`, which becomes `Request timeout`. When the status line arrives
first the timer is cleared, so the body is read without a bound; a status
that is not ok throws, and so do a lost or malformed body and a body that is
`null`. -/
def getAIResponse (x : Exchange) : Except JsError JsVal :=
  match x.net with
  | .fails failAt =>
    if timerFirst x failAt then .error ⟨"Error", "Request timeout"⟩
    else .error ⟨"TypeError", "Failed to fetch"⟩
  | .responds headersAt status body =>
    if timerFirst x headersAt then .error ⟨"Error", "Request timeout"⟩
    else if statusOk status then
      match body with
      | .fails _ => .error ⟨"TypeError", "Failed to fetch"⟩
      | .arrives _ text =>
        match responseJson text with
        | .error e => .error e
        | .ok data => getResponse data
    else .error ⟨"Error", "HTTP error! status: " ++ toString status⟩

/-- How a call of `sendMessage` stands when it first gives up control. -/
inductive Started where
  | returned (s : Chat)
  | threw (e : JsError) (s : Chat)
  | awaiting (message : String) (s : Chat)

/-- The method `sendMessage` up to its `await`: the two guards, then the flag
and the button are set, the user message is added (a throw here leaves the
method), the input is cleared, the typing indicator is shown and the request
is issued. -/
def sendMessageStart (now : Clock) (s : Chat) : Started :=
  if s.isProcessing then .returned s
  else if trim s.userInput = "" then .returned s
  else
    match addMessage (.str (trim s.userInput)) "user" now
        { s with isProcessing := true, sendDisabled := true } with
    | .error e => .threw e { s with isProcessing := true, sendDisabled := true }
    | .ok s1 =>
      .awaiting (trim s.userInput)
        { showTypingIndicator { s1 with userInput := "" } with
          requests := s1.requests ++ [chatRequest (trim s.userInput)] }

/-- The body of the `try` block of `sendMessage` after a response value. -/
def onResponse (message : String) (response : JsVal) (now : Clock) (s : Chat) :
    Except (JsError × Chat) Chat :=
  match addMessage response "bot" now (hideTypingIndicator s) with
  | .error e => .error (e, hideTypingIndicator s)
  | .ok s1 =>
    match saveToHistory message response now s1 with
    | .error e => .error (e, s1)
    | .ok s2 => .ok s2

/-- The `catch` block of `sendMessage`. -/
def onError (s : Chat) : Chat := showError apology (hideTypingIndicator s)

/-- The `finally` block of `sendMessage`. -/
def onFinally (s : Chat) : Chat := { s with isProcessing := false, sendDisabled := false }

/-- The method `sendMessage` from its `await` on: `try`, `catch`, `finally`. -/
def sendMessageResume (message : String) (x : Exchange) (now : Clock) (s : Chat) : Chat :=
  match getAIResponse x with
  | .error _ => onFinally (onError s)
  | .ok response =>
    match onResponse message response now s with
    | .error (_, s1) => onFinally (onError s1)
    | .ok s1 => onFinally s1

/-- How a call of `sendMessage` ends: its promise is fulfilled or rejected. -/
inductive Finished where
  | fulfilled (s : Chat)
  | rejected (e : JsError) (s : Chat)

/-- A whole call of `sendMessage` with nothing in between: the start at one
reading of the clock, the exchange, the continuation at a later reading. -/
def sendMessage (now : Clock) (x : Exchange) (later : Clock) (s : Chat) : Finished :=
  match sendMessageStart now s with
  | .returned s1 => .fulfilled s1
  | .threw e s1 => .rejected e s1
  | .awaiting message s1 => .fulfilled (sendMessageResume message x later s1)

/-- The state a finished call leaves. -/
def Finished.state : Finished → Chat
  | .fulfilled s => s
  | .rejected _ s => s

/-- The controller together with the calls of `sendMessage` suspended at their
`await`, oldest first; each is known by the message it holds. A suspended
call is a request in flight. -/
structure Sys where
  chat : Chat
  pending : List String

/-- What can happen to the page: the user (or a quick button, or speech input)
sets the input, `sendMessage` is called, the request of a suspended call
settles and that call continues, or `saveToHistory` is called. -/
inductive Event where
  | input (text : String)
  | send (now : Clock)
  | settle (i : Nat) (x : Exchange) (now : Clock)
  | save (userMessage : String) (botResponse : JsVal) (now : Clock)

/-- One event on the system. -/
def step (sys : Sys) : Event → Sys
  | .input text => { sys with chat := { sys.chat with userInput := text } }
  | .send now =>
    match sendMessageStart now sys.chat with
    | .returned s => { sys with chat := s }
    | .threw _ s => { sys with chat := s }
    | .awaiting message s => ⟨s, sys.pending ++ [message]⟩
  | .settle i x now =>
    match sys.pending.get? i with
    | none => sys
    | some message => ⟨sendMessageResume message x now sys.chat, sys.pending.eraseIdx i⟩
  | .save userMessage botResponse now =>
    match saveToHistory userMessage botResponse now sys.chat with
    | .ok s => { sys with chat := s }
    | .error _ => sys

/-- A sequence of events, in order. -/
def run (sys : Sys) (events : List Event) : Sys := events.foldl step sys

/-- The system right after the constructor: nothing in flight. -/
def boot (parseHtml : String → List Dom) (userInput : String) (sendDisabled : Bool)
    (chatMessages : List Dom) (storage : Option String) : Sys :=
  ⟨constructor parseHtml userInput sendDisabled chatMessages storage, []⟩

end Static

/-! ## The controller of src/script.js -/

namespace Basic

/-- The state of the page of the minimal controller: the HTML parser of the
browser, the value of `#user-input`, the children of `#chat-messages`, and the
requests issued. -/
structure Chat where
  parseHtml : String → List Dom
  userInput : String
  chatMessages : List Dom
  requests : List Request

/-- The field `apiUrl`. -/
def apiUrl : String := "http://localhost:5000/api/chat"

mutual
/-- The conversion of a value to a string, as a template literal does it. -/
def toText : JsVal → String
  | .undefined => "undefined"
  | .null => "null"
  | .bool true => "true"
  | .bool false => "false"
  | .num lit => lit
  | .str s => s
  | .arr items => String.mk (joinComma (itemTexts items))
  | .obj _ => "[object Object]"
/-- The texts `Array.prototype.join` puts together: empty for `null` and
`undefined`. -/
def itemTexts : List JsVal → List (List Char)
  | [] => []
  | .null :: vs => [] :: itemTexts vs
  | .undefined :: vs => [] :: itemTexts vs
  | v :: vs => (toText v).data :: itemTexts vs
end

/-- The children an assignment to `textContent` gives an element: one text, or
nothing for the empty string, `null` and `undefined`. -/
def textChildren : JsVal → List Dom
  | .null => []
  | .undefined => []
  | v => if toText v = "" then [] else [.text (toText v)]

/-- The element `addMessage(content, sender)` appends: a `div` with the class
of the sender around a `div` of class `message-content`; the text of a bot
message goes into `innerHTML` as it is, behind a fixed label, that of any
other sender into `textContent`. -/
def messageNode (parseHtml : String → List Dom) (content : JsVal) (sender : String) : Dom :=
  .element "div" "" ("message " ++ sender ++ "-message")
    [.element "div" "" "message-content"
      (if sender = "bot" then parseHtml ("<strong>MindBridge:</strong> " ++ toText content)
       else textChildren content)]

/-- The method `addMessage(content, sender)`. -/
def addMessage (content : JsVal) (sender : String) (s : Chat) : Chat :=
  { s with chatMessages := s.chatMessages ++ [messageNode s.parseHtml content sender] }

/-- The markup `showTypingIndicator` assigns to `innerHTML`. -/
def typingHtml : String :=
  "\n            <div class=\"message-content\">\n                <strong>MindBridge:</strong> \n"
    ++ "                <span class=\"typing-dots\">\n"
    ++ "                    <span>.</span><span>.</span><span>.</span>\n"
    ++ "                </span>\n            </div>\n        "

/-- The element `showTypingIndicator` appends: a `div` with the id
`typing-indicator`. -/
def typingNode (parseHtml : String → List Dom) : Dom :=
  .element "div" "typing-indicator" "message bot-message" (parseHtml typingHtml)

/-- The method `showTypingIndicator`. -/
def showTypingIndicator (s : Chat) : Chat :=
  { s with chatMessages := s.chatMessages ++ [typingNode s.parseHtml] }

/-- The method `hideTypingIndicator`. -/
def hideTypingIndicator (s : Chat) : Chat :=
  { s with chatMessages := removeTyping s.chatMessages }

/-- The request `getAIResponse` issues. -/
def chatRequest (message : String) : Request :=
  ⟨apiUrl, "POST", "application/json", requestBody message, false⟩

/-- The method `getAIResponse(message)` on an exchange: there is no timer, so
the times play no part; a failed `fetch`, a status that is not ok, a lost or
malformed body and a body that is `null` throw. -/
def getAIResponse (x : Exchange) : Except JsError JsVal :=
  match x.net with
  | .fails _ => .error ⟨"TypeError", "Failed to fetch"⟩
  | .responds _ status body =>
    if statusOk status then
      match body with
      | .fails _ => .error ⟨"TypeError", "Failed to fetch"⟩
      | .arrives _ text =>
        match responseJson text with
        | .error e => .error e
        | .ok data => getResponse data
    else .error ⟨"Error", "API request failed"⟩

/-- How a call of `sendMessage` stands when it first gives up control. -/
inductive Started where
  | returned (s : Chat)
  | awaiting (message : String) (s : Chat)

/-- The method `sendMessage` up to its `await`. -/
def sendMessageStart (s : Chat) : Started :=
  if trim s.userInput = "" then .returned s
  else
    .awaiting (trim s.userInput)
      { showTypingIndicator
          { addMessage (.str (trim s.userInput)) "user" s with userInput := "" } with
        requests := s.requests ++ [chatRequest (trim s.userInput)] }

/-- The method `sendMessage` from its `await` on: `try` and `catch`. -/
def sendMessageResume (x : Exchange) (s : Chat) : Chat :=
  match getAIResponse x with
  | .ok response => addMessage response "bot" (hideTypingIndicator s)
  | .error _ => addMessage (.str apology) "bot" (hideTypingIndicator s)

/-- A whole call of `sendMessage` with nothing in between; the method has no
path on which it throws. -/
def sendMessage (x : Exchange) (s : Chat) : Chat :=
  match sendMessageStart s with
  | .returned s1 => s1
  | .awaiting _ s1 => sendMessageResume x s1

end Basic

/-! ## Vocabulary of the properties -/

/-- A chat turn of the data model: three strings. -/
structure Turn where
  user : String
  bot : String
  timestamp : String
deriving DecidableEq, Repr

/-- The object that holds a chat turn. -/
def Turn.toJs (t : Turn) : JsVal := Static.turn t.user (.str t.bot) t.timestamp

/-- The array that holds a sequence of chat turns. -/
def historyVal (h : List Turn) : JsVal := .arr (h.map Turn.toJs)

/-- No element of the forest, at any depth, bears the id of the typing
indicator. -/
def noTyping (nodes : List Dom) : Prop := hasId "typing-indicator" nodes = false

/-- The time at which `fetch` would settle by itself: the connection fails or
the status line arrives. -/
def settledAt : NetBehaviour → Nat
  | .fails failAt => failAt
  | .responds headersAt _ _ => headersAt

/-- The time at which the exchange is over: the connection fails, or the body
has been received in full or is lost. -/
def receivedAt : NetBehaviour → Nat
  | .fails failAt => failAt
  | .responds _ _ (.arrives doneAt _) => doneAt
  | .responds _ _ (.fails failAt) => failAt

/-- The failures of a request of the full controller: a network error, the
abort timer running before the status line, a status that is not 2xx. -/
def Static.requestFails (x : Exchange) : Prop :=
  match x.net with
  | .fails _ => True
  | .responds headersAt status _ =>
    Static.timerFirst x headersAt = true ∨ statusOk status = false

/-- The failures of a request of the minimal controller, which has no timer:
a rejected `fetch`, a status that is not 2xx. -/
def Basic.requestFails (x : Exchange) : Prop :=
  match x.net with
  | .fails _ => True
  | .responds _ status _ => statusOk status = false

/-- A JSON string literal written in front of a text. -/
def quoted (s : String) (rest : List Char) : List Char :=
  '"' :: (quoteChars s.data ++ '"' :: rest)

/-- The JSON text of a chat turn written in front of a text. -/
def turnText (t : Turn) (rest : List Char) : List Char :=
  '{' :: quoted "user" (':' :: quoted t.user (',' :: quoted "bot" (':' :: quoted t.bot
    (',' :: quoted "timestamp" (':' :: quoted t.timestamp ('}' :: rest))))))

/-- The JSON texts of chat turns, separated by commas, written in front of a
text. -/
def turnsText : List Turn → List Char → List Char
  | [], rest => rest
  | [t], rest => turnText t rest
  | t :: u :: ts, rest => turnText t (',' :: turnsText (u :: ts) rest)

/-- The length of a history that is an array. -/
def arrayLength : JsVal → Option Nat
  | .arr items => some items.length
  | _ => none

/-- A stored item as `saveToHistory` would write it for a history of 101
turns: the JSON text of an array of 101 objects. -/
def longStored : String :=
  (JSONstringify (historyVal (List.replicate 101 ⟨"a", "b", "t"⟩))).getD "undefined"

/-- The history is a value with properties, neither `null` nor `undefined`: the
read of its length in `addMessage` does not throw. An array is such a value. -/
def Static.hasLength (v : JsVal) : Prop := v ≠ .null ∧ v ≠ .undefined

/-- The invariant of the processing flag: at most one call is suspended, the
flag is set exactly when one is, and the history is neither `null` nor
`undefined`. -/
def Static.Inv (sys : Static.Sys) : Prop :=
  sys.pending.length ≤ 1 ∧ (sys.chat.isProcessing = true ↔ sys.pending.length = 1) ∧
    Static.hasLength sys.chat.chatHistory

/-- A word taken off the front of a text, if the text starts with it. -/
def stripWord : List Char → List Char → Option (List Char)
  | [], s => some s
  | _ :: _, [] => none
  | c :: w, x :: s => if x = c then stripWord w s else none

/-- What follows `https://` or `http://` at the front of a text. -/
def afterScheme (s : List Char) : Option (List Char) :=
  match stripWord "https://".data s with
  | some r => some r
  | none => stripWord "http://".data s

/-- The text starts with `http://` or `https://` and a character that is not
white space follows. -/
def isUrlStart (s : List Char) : Bool :=
  match afterScheme s with
  | some (c :: _) => !isJsSpace c
  | _ => false

/-- What is left of a text that starts a URL after the run of characters that
are not white space. -/
def afterUrl (s : List Char) : List Char :=
  match afterScheme s with
  | some (_ :: t) => t.dropWhile (fun x => !isJsSpace x)
  | _ => s

/-- The anchor element `formatMessage` writes for a URL. -/
def anchor (url : List Char) : List Char :=
  "<a href=\"".data ++ (url ++ ("\" target=\"_blank\" rel=\"noopener\">".data ++
    (url ++ "</a>".data)))

/-! ## Blank input (C1) -/

theorem dropWhile_all_space (cs : List Char) (h : ∀ c ∈ cs, isJsSpace c = true) :
    cs.dropWhile isJsSpace = [] := by
  induction cs with
  | nil => rfl
  | cons c cs ih =>
    have hc : isJsSpace c = true := h c (List.mem_cons_self _ _)
    simp only [List.dropWhile, hc]
    exact ih (fun d hd => h d (List.mem_cons_of_mem _ hd))

/-- A text made of white space only trims to the empty string. -/
theorem trim_blank (s : String) (h : ∀ c ∈ s.data, isJsSpace c = true) : trim s = "" := by
  unfold trim trimStart trimEnd
  rw [dropWhile_all_space _ h]
  rfl

/-- C1: for every state of either controller and every input whose trimmed
value is empty, a whole call of `sendMessage` is fulfilled in the very same
state: no request is issued, nothing is appended to the chat, and the flag,
the history and the store are as before. -/
theorem blank_input_is_ignored :
    (∀ (s : Static.Chat) (now later : Clock) (x : Exchange), trim s.userInput = "" →
      Static.sendMessageStart now s = .returned s ∧
      Static.sendMessage now x later s = .fulfilled s) ∧
    (∀ (b : Basic.Chat) (x : Exchange), trim b.userInput = "" →
      Basic.sendMessageStart b = .returned b ∧ Basic.sendMessage x b = b) := by
  refine ⟨?_, ?_⟩
  · intro s now later x h
    have h1 : Static.sendMessageStart now s = .returned s := by
      unfold Static.sendMessageStart
      by_cases hp : s.isProcessing = true
      · simp [hp]
      · simp [hp, h]
    exact ⟨h1, by simp [Static.sendMessage, h1]⟩
  · intro b x h
    have h1 : Basic.sendMessageStart b = .returned b := by
      simp [Basic.sendMessageStart, h]
    exact ⟨h1, by simp [Basic.sendMessage, h1]⟩

/-- C1 at work: an input of blanks, a tab and a line feed, in a full controller
that is idle and in a minimal controller. -/
theorem blank_input_is_ignored_witness :
    Static.sendMessage ⟨"10:00", "t"⟩ ⟨.fails 5, false⟩ ⟨"10:01", "u"⟩
        (Static.constructor refParse "  \t\n" false [] none)
      = .fulfilled (Static.constructor refParse "  \t\n" false [] none) ∧
    Basic.sendMessage ⟨.fails 5, false⟩ ⟨refParse, "  \t\n", [], []⟩ = ⟨refParse, "  \t\n", [], []⟩ :=
  ⟨(blank_input_is_ignored.1 _ _ _ _ (by decide)).2,
   (blank_input_is_ignored.2 _ _ (by decide)).2⟩

/-! ## The history cap in saveToHistory (C3) -/

theorem pushCapped_below (h : List JsVal) (t : JsVal) (hlen : h.length < 100) :
    Static.pushCapped h t = h ++ [t] := by
  unfold Static.pushCapped Static.historyCap
  have : ¬ (h ++ [t]).length > 100 := by simp; omega
  simp only [this, if_false]

theorem pushCapped_full (h : List JsVal) (t : JsVal) (hlen : 100 ≤ h.length) :
    Static.pushCapped h t = h.tail ++ [t] := by
  unfold Static.pushCapped Static.historyCap
  have h1 : (h ++ [t]).length > 100 := by simp; omega
  have h2 : h ≠ [] := by
    intro e
    rw [e] at hlen
    simp at hlen
  simp only [h1, if_true]
  cases h with
  | nil => exact absurd rfl h2
  | cons a as => rfl

theorem pushCapped_length (h : List JsVal) (t : JsVal) (hlen : h.length ≤ 100) :
    (Static.pushCapped h t).length ≤ 100 := by
  by_cases hlt : h.length < 100
  · rw [pushCapped_below h t hlt]
    simp
    omega
  · rw [pushCapped_full h t (by omega)]
    simp
    omega

theorem saveToHistory_arr (s : Static.Chat) (h : List JsVal) (u : String) (b : JsVal)
    (now : Clock) (hs : s.chatHistory = .arr h) :
    Static.saveToHistory u b now s = .ok { s with
      chatHistory := .arr (Static.pushCapped h (Static.turn u b now.iso))
      storage := some ((JSONstringify
        (.arr (Static.pushCapped h (Static.turn u b now.iso)))).getD "undefined") } := by
  unfold Static.saveToHistory
  rw [hs]

/-- C3: on a history of at most 100 entries `saveToHistory` succeeds; below
100 entries the new history is the old one followed by the new turn, and at
100 entries it is the old one without its first entry, followed by the new
turn. In both cases the new turn is last and the entries that stay keep
their order. -/
theorem saveToHistory_appends_and_evicts_oldest (s : Static.Chat) (h : List JsVal)
    (userMessage : String) (botResponse : JsVal) (now : Clock)
    (hs : s.chatHistory = .arr h) (hlen : h.length ≤ 100) :
    ∃ s1 h1, Static.saveToHistory userMessage botResponse now s = .ok s1 ∧
      s1.chatHistory = .arr h1 ∧
      (h.length < 100 → h1 = h ++ [Static.turn userMessage botResponse now.iso]) ∧
      (h.length = 100 → h1 = h.tail ++ [Static.turn userMessage botResponse now.iso]) ∧
      h1.getLast? = some (Static.turn userMessage botResponse now.iso) ∧
      h1.length ≤ 100 := by
  refine ⟨_, _, saveToHistory_arr s h userMessage botResponse now hs, rfl, ?_, ?_, ?_, ?_⟩
  · intro hlt
    exact pushCapped_below h _ hlt
  · intro heq
    exact pushCapped_full h _ (by omega)
  · by_cases hlt : h.length < 100
    · rw [pushCapped_below h _ hlt]
      simp
    · rw [pushCapped_full h _ (by omega)]
      simp
  · exact pushCapped_length h _ hlen

/-- C3 at work, below the cap and at the cap. A history of two entries gains
the new turn as its third entry and the two stay in place. A history of 100
entries, the entry `first` and then 99 times the entry `other`, becomes 99
times `other` followed by the new turn: the entry evicted is the oldest one,
the others keep their order, the new turn is last and the length is 100. -/
theorem saveToHistory_appends_and_evicts_oldest_witness :
    (∃ s1, Static.saveToHistory "new" (.str "reply") ⟨"10:00", "t"⟩
        { parseHtml := refParse, isProcessing := false,
          chatHistory := .arr [.str "first", .str "other"],
          userInput := "", sendDisabled := false, chatMessages := [], storage := none,
          requests := [] } = .ok s1 ∧
      s1.chatHistory = .arr [.str "first", .str "other",
        .obj [("user", .str "new"), ("bot", .str "reply"), ("timestamp", .str "t")]]) ∧
    (∃ s1, Static.saveToHistory "new" (.str "reply") ⟨"10:00", "t"⟩
        { parseHtml := refParse, isProcessing := false,
          chatHistory := .arr (.str "first" :: List.replicate 99 (.str "other")),
          userInput := "", sendDisabled := false, chatMessages := [], storage := none,
          requests := [] } = .ok s1 ∧
      s1.chatHistory = .arr (List.replicate 99 (.str "other") ++
        [.obj [("user", .str "new"), ("bot", .str "reply"), ("timestamp", .str "t")]])) := by
  refine ⟨?_, ?_⟩
  · obtain ⟨s1, h1, hsave, hh, hbelow, _, _, _⟩ :=
      saveToHistory_appends_and_evicts_oldest
        { parseHtml := refParse, isProcessing := false,
          chatHistory := .arr [.str "first", .str "other"],
          userInput := "", sendDisabled := false, chatMessages := [], storage := none,
          requests := [] }
        [.str "first", .str "other"] "new" (.str "reply") ⟨"10:00", "t"⟩ rfl (by decide)
    refine ⟨s1, hsave, ?_⟩
    rw [hh, hbelow (by decide)]
    rfl
  · obtain ⟨s1, h1, hsave, hh, _, hfull, _, _⟩ :=
      saveToHistory_appends_and_evicts_oldest
        { parseHtml := refParse, isProcessing := false,
          chatHistory := .arr (.str "first" :: List.replicate 99 (.str "other")),
          userInput := "", sendDisabled := false, chatMessages := [], storage := none,
          requests := [] }
        (.str "first" :: List.replicate 99 (.str "other")) "new" (.str "reply")
        ⟨"10:00", "t"⟩ rfl (by simp)
    refine ⟨s1, hsave, ?_⟩
    rw [hh, hfull (by simp)]
    rfl

/-! ## The processing flag (C6, C7) -/

theorem hasLength_arr (v : JsVal) (h : List JsVal) (hs : v = .arr h) : Static.hasLength v := by
  subst hs
  unfold Static.hasLength
  exact ⟨fun e => (by cases e), fun e => (by cases e)⟩

theorem readLength_ok (v : JsVal) (hl : Static.hasLength v) : Static.readLength v = .ok () := by
  cases v with
  | null => exact absurd rfl hl.1
  | undefined => exact absurd rfl hl.2
  | _ => rfl

theorem addMessage_str (text : String) (type : String) (now : Clock) (s : Static.Chat)
    (hl : Static.hasLength s.chatHistory) :
    Static.addMessage (.str text) type now s = .ok { s with
      chatMessages := s.chatMessages ++
        [Static.messageNode s.parseHtml type (Static.formatText text) now.localeTime] } := by
  unfold Static.addMessage Static.formatMessage
  simp [readLength_ok _ hl]

theorem sendMessageStart_awaiting (now : Clock) (s : Static.Chat)
    (hp : s.isProcessing = false) (hm : trim s.userInput ≠ "")
    (hl : Static.hasLength s.chatHistory) :
    Static.sendMessageStart now s = .awaiting (trim s.userInput)
      { s with
        isProcessing := true
        sendDisabled := true
        userInput := ""
        chatMessages := s.chatMessages ++
          [Static.messageNode s.parseHtml "user" (Static.formatText (trim s.userInput))
            now.localeTime,
           Static.typingNode s.parseHtml]
        requests := s.requests ++ [Static.chatRequest (trim s.userInput)] } := by
  unfold Static.sendMessageStart
  rw [addMessage_str _ _ _ _ (by simpa using hl)]
  simp [hp, hm, Static.showTypingIndicator]

theorem sendMessageResume_flags (message : String) (x : Exchange) (now : Clock)
    (s : Static.Chat) :
    (Static.sendMessageResume message x now s).isProcessing = false ∧
    (Static.sendMessageResume message x now s).sendDisabled = false := by
  unfold Static.sendMessageResume
  split
  · simp [Static.onFinally]
  · split <;> simp [Static.onFinally]

/-- Where the flag is reset: for every non-blank message sent by an idle
controller whose history is neither `null` nor `undefined` (any array, in
particular), and for every behaviour of the network (success, malformed or
lost body, network error, any status, timeout), the call of `sendMessage` is
fulfilled in a state where `isProcessing` is false and the send button is
enabled. -/
theorem sendMessage_reenables_input (s : Static.Chat) (now later : Clock)
    (x : Exchange) (hp : s.isProcessing = false) (hm : trim s.userInput ≠ "")
    (hl : Static.hasLength s.chatHistory) :
    ∃ s1, Static.sendMessage now x later s = .fulfilled s1 ∧
      s1.isProcessing = false ∧ s1.sendDisabled = false := by
  unfold Static.sendMessage
  rw [sendMessageStart_awaiting now s hp hm hl]
  exact ⟨_, rfl, sendMessageResume_flags _ _ _ _⟩

/-- C6 fails on the code: over the stored item `null`, which `loadChatHistory`
parses and assigns as the history, a call of `sendMessage` with the message
`hi` sets the flag and disables the button, then `addMessage` throws on the
read of `this.chatHistory.length`, before the `try` block and so outside its
`finally`: whatever the network would do, the call ends rejected, no request
was issued, `isProcessing` is true and the send button is disabled. -/
theorem null_history_leaves_input_disabled (x : Exchange) (now later : Clock) :
    (Static.constructor refParse "hi" false [] (some "null")).isProcessing = false ∧
    trim (Static.constructor refParse "hi" false [] (some "null")).userInput = "hi" ∧
    ∃ s1, Static.sendMessage now x later
        (Static.constructor refParse "hi" false [] (some "null"))
        = .rejected ⟨"TypeError", "Cannot read properties of null (reading 'length')"⟩ s1 ∧
      s1.isProcessing = true ∧ s1.sendDisabled = true ∧ s1.requests = [] ∧
      s1.chatMessages = [] :=
  ⟨rfl, by decide, _, rfl, rfl, rfl, rfl, rfl⟩

theorem sendMessageResume_history (message : String) (x : Exchange) (now : Clock)
    (s : Static.Chat) (h : List JsVal) (hs : s.chatHistory = .arr h) :
    (Static.sendMessageResume message x now s).chatHistory = .arr h ∨
    ∃ t, (Static.sendMessageResume message x now s).chatHistory
      = .arr (Static.pushCapped h t) := by
  unfold Static.sendMessageResume
  cases hg : Static.getAIResponse x with
  | error e =>
    left
    simp [Static.onFinally, Static.onError, Static.showError, Static.hideTypingIndicator, hs]
  | ok r =>
    cases r with
    | str text =>
      right
      refine ⟨Static.turn message (.str text) now.iso, ?_⟩
      simp [Static.onResponse, Static.addMessage, Static.formatMessage, Static.readLength,
        Static.hideTypingIndicator, hs, Static.saveToHistory, Static.onFinally]
    | _ =>
      left
      simp [Static.onResponse, Static.addMessage, Static.formatMessage,
        Static.hideTypingIndicator, hs, Static.onFinally, Static.onError, Static.showError]

theorem sendMessageResume_hasLength (message : String) (x : Exchange) (now : Clock)
    (s : Static.Chat) (hl : Static.hasLength s.chatHistory) :
    Static.hasLength (Static.sendMessageResume message x now s).chatHistory := by
  cases hc : s.chatHistory with
  | arr h =>
    rcases sendMessageResume_history message x now s h hc with h1 | ⟨t, h1⟩
    · exact hasLength_arr _ _ h1
    · exact hasLength_arr _ _ h1
  | null => exact absurd hc hl.1
  | undefined => exact absurd hc hl.2
  | _ =>
    have hsame : (Static.sendMessageResume message x now s).chatHistory = s.chatHistory := by
      unfold Static.sendMessageResume
      cases hg : Static.getAIResponse x with
      | error e =>
        simp [Static.onFinally, Static.onError, Static.showError, Static.hideTypingIndicator]
      | ok r =>
        cases r <;>
          simp [Static.onResponse, Static.addMessage, Static.formatMessage, Static.readLength,
            Static.hideTypingIndicator, hc, Static.saveToHistory, Static.onFinally,
            Static.onError, Static.showError]
    rw [hsame]
    exact hl

theorem sendMessageStart_returned (now : Clock) (s : Static.Chat)
    (hp : s.isProcessing = true) : Static.sendMessageStart now s = .returned s := by
  unfold Static.sendMessageStart
  simp [hp]

theorem sendMessageStart_blank (now : Clock) (s : Static.Chat)
    (hm : trim s.userInput = "") : Static.sendMessageStart now s = .returned s := by
  unfold Static.sendMessageStart
  by_cases hp : s.isProcessing = true
  · simp [hp]
  · simp [hp, hm]

theorem saveToHistory_ok (u : String) (b : JsVal) (now : Clock) (s s1 : Static.Chat)
    (hsave : Static.saveToHistory u b now s = .ok s1) :
    ∃ h, s.chatHistory = .arr h ∧ s1 = { s with
      chatHistory := .arr (Static.pushCapped h (Static.turn u b now.iso))
      storage := some ((JSONstringify
        (.arr (Static.pushCapped h (Static.turn u b now.iso)))).getD "undefined") } := by
  unfold Static.saveToHistory at hsave
  cases hc : s.chatHistory with
  | arr h =>
    rw [hc] at hsave
    simp only [Except.ok.injEq] at hsave
    exact ⟨h, rfl, hsave.symm⟩
  | _ =>
    rw [hc] at hsave
    simp at hsave

theorem step_history (sys : Static.Sys) (e : Static.Event) (h : List JsVal)
    (hs : sys.chat.chatHistory = .arr h) :
    (Static.step sys e).chat.chatHistory = .arr h ∨
    ∃ t, (Static.step sys e).chat.chatHistory = .arr (Static.pushCapped h t) := by
  cases e with
  | input text => left; simpa [Static.step] using hs
  | send now =>
    left
    by_cases hp : sys.chat.isProcessing = true
    · simp [Static.step, sendMessageStart_returned now sys.chat hp, hs]
    · by_cases hm : trim sys.chat.userInput = ""
      · simp [Static.step, sendMessageStart_blank now sys.chat hm, hs]
      · simp [Static.step, sendMessageStart_awaiting now sys.chat (by simpa using hp) hm
          (hasLength_arr _ h hs), hs]
  | settle i x now =>
    cases hg : sys.pending.get? i with
    | none =>
      left
      simp only [Static.step, hg]
      exact hs
    | some message =>
      simp only [Static.step, hg]
      exact sendMessageResume_history message x now sys.chat h hs
  | save u b now =>
    right
    refine ⟨Static.turn u b now.iso, ?_⟩
    simp [Static.step, saveToHistory_arr sys.chat h u b now hs]

theorem step_inv (sys : Static.Sys) (e : Static.Event) (hinv : Static.Inv sys) :
    Static.Inv (Static.step sys e) := by
  obtain ⟨hlen, hflag, hl⟩ := hinv
  cases e with
  | input text => exact ⟨by simpa [Static.step] using hlen, by simpa [Static.step] using hflag,
      by simpa [Static.step] using hl⟩
  | send now =>
    by_cases hp : sys.chat.isProcessing = true
    · simp only [Static.step, sendMessageStart_returned now sys.chat hp]
      exact ⟨hlen, hflag, hl⟩
    · by_cases hm : trim sys.chat.userInput = ""
      · simp only [Static.step, sendMessageStart_blank now sys.chat hm]
        exact ⟨hlen, hflag, hl⟩
      · have h0 : sys.pending.length ≠ 1 := fun h1 => hp (hflag.2 h1)
        have hnil : sys.pending = [] := List.length_eq_zero.1 (by omega)
        simp only [Static.step, sendMessageStart_awaiting now sys.chat (by simpa using hp) hm hl]
        exact ⟨by simp [hnil], by simp [hnil], hl⟩
  | settle i x now =>
    cases hg : sys.pending.get? i with
    | none =>
      simp only [Static.step, hg]
      exact ⟨hlen, hflag, hl⟩
    | some message =>
      have hi : i < sys.pending.length := by
        rcases List.get?_eq_some.1 hg with ⟨hi, _⟩
        exact hi
      simp only [Static.step, hg]
      refine ⟨?_, ?_, sendMessageResume_hasLength message x now sys.chat hl⟩
      · simp only [List.length_eraseIdx, hi, if_true]
        omega
      · simp only [List.length_eraseIdx, hi, if_true,
          (sendMessageResume_flags message x now sys.chat).1]
        constructor
        · intro hf
          exact absurd hf (by simp)
        · intro h1
          omega
  | save u b now =>
    cases hsv : Static.saveToHistory u b now sys.chat with
    | error err =>
      simp only [Static.step, hsv]
      exact ⟨hlen, hflag, hl⟩
    | ok s1 =>
      obtain ⟨h, hh, hs1⟩ := saveToHistory_ok u b now sys.chat s1 hsv
      simp only [Static.step, hsv]
      subst hs1
      exact ⟨hlen, hflag, hasLength_arr _ _ rfl⟩

theorem run_inv (events : List Static.Event) (sys : Static.Sys) (hinv : Static.Inv sys) :
    Static.Inv (Static.run sys events) := by
  induction events generalizing sys with
  | nil => exact hinv
  | cons e es ih => exact ih (Static.step sys e) (step_inv sys e hinv)

/-- Where the flag follows the request: from an idle controller with nothing
in flight whose history is neither `null` nor `undefined` (any array, in
particular), after any sequence of input changes, calls of `sendMessage`,
completions of requests and calls of `saveToHistory`: at most one request is
in flight, `isProcessing` is true exactly when one is, and a call of
`sendMessage` made while `isProcessing` is true leaves the whole system as
it is (no request, nothing appended, no state changed). -/
theorem single_request_in_flight (sys : Static.Sys)
    (hpending : sys.pending = []) (hidle : sys.chat.isProcessing = false)
    (hl : Static.hasLength sys.chat.chatHistory) (events : List Static.Event) :
    (Static.run sys events).pending.length ≤ 1 ∧
    ((Static.run sys events).chat.isProcessing = true ↔
      (Static.run sys events).pending.length = 1) ∧
    ((Static.run sys events).chat.isProcessing = true →
      ∀ now, Static.step (Static.run sys events) (.send now) = Static.run sys events) := by
  have hinv : Static.Inv (Static.run sys events) :=
    run_inv events sys ⟨by simp [hpending], by simp [hpending, hidle], hl⟩
  refine ⟨hinv.1, hinv.2.1, ?_⟩
  intro hp now
  simp [Static.step, sendMessageStart_returned now _ hp]

/-- C7 fails on the code: from the controller constructed over the stored item
`null`, one call of `sendMessage` with the message `hi` reaches a state in
which `isProcessing` is true while no request is in flight and none was ever
issued; every later call of `sendMessage` returns at the flag, so the state
stays so for good. -/
theorem null_history_sets_flag_without_request (now : Clock) :
    (Static.run (Static.boot refParse "hi" false [] (some "null"))
      [.send now]).chat.isProcessing = true ∧
    (Static.run (Static.boot refParse "hi" false [] (some "null")) [.send now]).pending = [] ∧
    (Static.run (Static.boot refParse "hi" false [] (some "null"))
      [.send now]).chat.requests = [] ∧
    ∀ (text : String) (later : Clock),
      Static.run (Static.boot refParse "hi" false [] (some "null"))
          [.send now, .input text, .send later]
        = Static.step (Static.run (Static.boot refParse "hi" false [] (some "null"))
            [.send now]) (.input text) :=
  ⟨rfl, rfl, rfl, fun _ _ => rfl⟩

/-! ## Failed requests (C4) -/

mutual
theorem Dom.removeFirst_absent (id : String) :
    ∀ d : Dom, d.hasId id = false → d.removeFirst id = none
  | .element tag i c children, h => by
    simp only [Dom.hasId, Bool.or_eq_false_iff, beq_eq_false_iff_ne] at h
    simp [Dom.removeFirst, h.1, removeFirst_none id children h.2]
  | .text _, _ => by simp [Dom.removeFirst]
theorem removeFirst_none (id : String) :
    ∀ ds : List Dom, hasId id ds = false → removeFirst id ds = none
  | [], _ => by simp [removeFirst]
  | d :: ds, h => by
    simp only [hasId, Bool.or_eq_false_iff] at h
    simp [removeFirst, Dom.removeFirst_absent id d h.1, removeFirst_none id ds h.2]
end

theorem removeFirst_append (id : String) (nodes rest : List Dom)
    (hno : hasId id nodes = false) :
    removeFirst id (nodes ++ rest) = (removeFirst id rest).map (fun r => nodes ++ r) := by
  induction nodes with
  | nil => simp
  | cons d ds ih =>
    simp only [hasId, Bool.or_eq_false_iff] at hno
    have h1 : removeFirst id (ds.append rest)
        = (removeFirst id rest).map (fun r => ds ++ r) := ih hno.2
    simp only [List.cons_append, removeFirst, Dom.removeFirst_absent id d hno.1]
    rw [h1]
    cases removeFirst id rest <;> simp

theorem removeTyping_append (nodes : List Dom) (n : Dom) (tag className : String)
    (children : List Dom) (hno : noTyping nodes) (hn : n.hasId "typing-indicator" = false) :
    removeTyping (nodes ++ [n, .element tag "typing-indicator" className children])
      = nodes ++ [n] := by
  unfold removeTyping
  rw [removeFirst_append _ _ _ hno]
  simp [removeFirst, Dom.removeFirst_absent _ n hn, Dom.removeFirst]

theorem messageHtml_user (formatted timestamp : String) :
    Static.messageHtml "user" formatted timestamp
      = "\n            <div class=\"message-content\">\n                <strong>You:</strong> "
        ++ formatted ++ "\n                <span class=\"message-time\">" ++ timestamp
        ++ "</span>\n            </div>\n        " := by
  simp [Static.messageHtml, String.append_assoc]


set_option maxRecDepth 100000 in
theorem errorHtml_apology :
    Static.errorHtml apology
      = "\n            <div class=\"message-content\" style=\"background: linear-gradient(135deg, #ffe6e6, #ffcccc);\">\n                <strong>MindBridge:</strong> Sorry, I'm having trouble connecting. Please try again. 😊\n            </div>\n        " := by
  rfl

theorem getAIResponse_of_requestFails (x : Exchange) (hf : Static.requestFails x) :
    ∃ e, Static.getAIResponse x = .error e := by
  unfold Static.requestFails at hf
  unfold Static.getAIResponse
  cases hn : x.net with
  | fails t =>
    simp only
    split
    · exact ⟨_, rfl⟩
    · exact ⟨_, rfl⟩
  | responds t status body =>
    rw [hn] at hf
    simp only at hf
    simp only
    by_cases ht : Static.timerFirst x t = true
    · simp only [ht, if_true]
      exact ⟨_, rfl⟩
    · have hst : statusOk status = false := by
        rcases hf with h1 | h1
        · exact absurd h1 ht
        · exact h1
      simp only [ht, hst]
      exact ⟨_, rfl⟩

theorem basic_getAIResponse_of_requestFails (x : Exchange) (hf : Basic.requestFails x) :
    ∃ e, Basic.getAIResponse x = .error e := by
  unfold Basic.requestFails at hf
  unfold Basic.getAIResponse
  cases hn : x.net with
  | fails t => exact ⟨_, rfl⟩
  | responds t status body =>
    rw [hn] at hf
    simp only at hf
    simp only [hf]
    exact ⟨_, rfl⟩

theorem sendMessageResume_of_error (message : String) (x : Exchange) (now : Clock)
    (s : Static.Chat) (e : JsError) (hg : Static.getAIResponse x = .error e) :
    Static.sendMessageResume message x now s = Static.onFinally (Static.onError s) := by
  unfold Static.sendMessageResume
  rw [hg]

set_option maxRecDepth 100000 in
/-- C4 as stated fails: the message `<b id="typing-indicator">x</b>` goes into
the chat as markup, so its `b` element is the first element that bears the id
of the typing indicator. When the request fails, `hideTypingIndicator` takes
that element out of the user message and leaves the indicator where it is:
the chat ends with three elements, the user message, the typing indicator (a
bot message without the apology) and the apology. -/
theorem markup_id_keeps_indicator_after_failure :
    (Static.sendMessage ⟨"10:00", "t"⟩ ⟨.fails 5, false⟩ ⟨"10:01", "u"⟩
      (Static.constructor refParse "<b id=\"typing-indicator\">x</b>" false []
        none)).state.chatMessages.map Dom.idOf = ["", "typing-indicator", ""] ∧
    (Static.sendMessage ⟨"10:00", "t"⟩ ⟨.fails 5, false⟩ ⟨"10:01", "u"⟩
      (Static.constructor refParse "<b id=\"typing-indicator\">x</b>" false []
        none)).state.chatMessages.map Dom.classOf
      = ["message user-message", "message bot-message", "message bot-message"] ∧
    (Static.sendMessage ⟨"10:00", "t"⟩ ⟨.fails 5, false⟩ ⟨"10:01", "u"⟩
      (Static.constructor refParse "<b id=\"typing-indicator\">x</b>" false []
        none)).state.chatMessages.drop 1
      = [Static.typingNode refParse, Static.errorNode refParse apology] := by
  refine ⟨rfl, rfl, rfl⟩

/-- C4, amended: for every non-blank message and every failure of the request
(network error, status that is not 2xx, timeout), in either controller, when
no element of the chat bears the id `typing-indicator` at any depth, the
markup of the user message included (and, in the full controller, the state
is idle with a history that is neither `null` nor `undefined`): the call of
`sendMessage` does not throw, one request is issued, a POST to the chat
endpoint, and the chat gains the user message followed by one bot element
that carries the fixed apology text, whatever the failure. -/
theorem failed_request_shows_apology :
    (∀ (s : Static.Chat) (now later : Clock) (x : Exchange),
      s.isProcessing = false → trim s.userInput ≠ "" → Static.hasLength s.chatHistory →
      noTyping s.chatMessages →
      noTyping (s.parseHtml
        ("\n            <div class=\"message-content\">\n                <strong>You:</strong> "
          ++ Static.formatText (trim s.userInput)
          ++ "\n                <span class=\"message-time\">" ++ now.localeTime
          ++ "</span>\n            </div>\n        ")) →
      Static.requestFails x →
      ∃ (s1 : Static.Chat) (req : Request),
        Static.sendMessage now x later s = .fulfilled s1 ∧
        s1.chatMessages = s.chatMessages ++
          [.element "div" "" "message user-message" (s.parseHtml
            ("\n            <div class=\"message-content\">\n                <strong>You:</strong> "
              ++ Static.formatText (trim s.userInput)
              ++ "\n                <span class=\"message-time\">" ++ now.localeTime
              ++ "</span>\n            </div>\n        ")),
           .element "div" "" "message bot-message" (s.parseHtml
            "\n            <div class=\"message-content\" style=\"background: linear-gradient(135deg, #ffe6e6, #ffcccc);\">\n                <strong>MindBridge:</strong> Sorry, I'm having trouble connecting. Please try again. 😊\n            </div>\n        ")] ∧
        s1.requests = s.requests ++ [req] ∧ req.url = "/api/chat" ∧ req.method = "POST" ∧
        s1.chatHistory = s.chatHistory ∧ s1.storage = s.storage) ∧
    (∀ (b : Basic.Chat) (x : Exchange),
      trim b.userInput ≠ "" → noTyping b.chatMessages → Basic.requestFails x →
      ∃ req : Request,
        (Basic.sendMessage x b).chatMessages = b.chatMessages ++
          [.element "div" "" "message user-message"
            [.element "div" "" "message-content" [.text (trim b.userInput)]],
           .element "div" "" "message bot-message"
            [.element "div" "" "message-content" (b.parseHtml
              "<strong>MindBridge:</strong> Sorry, I'm having trouble connecting. Please try again. 😊")]] ∧
        (Basic.sendMessage x b).requests = b.requests ++ [req] ∧
        req.url = "http://localhost:5000/api/chat" ∧ req.method = "POST") := by
  refine ⟨?_, ?_⟩
  · intro s now later x hp hm hs hno hmsg hf
    obtain ⟨e, he⟩ := getAIResponse_of_requestFails x hf
    have hrun : Static.sendMessage now x later s = .fulfilled
        (Static.sendMessageResume (trim s.userInput) x later
          { s with
            isProcessing := true
            sendDisabled := true
            userInput := ""
            chatMessages := s.chatMessages ++
              [Static.messageNode s.parseHtml "user" (Static.formatText (trim s.userInput))
                now.localeTime,
               Static.typingNode s.parseHtml]
            requests := s.requests ++ [Static.chatRequest (trim s.userInput)] }) := by
      unfold Static.sendMessage
      rw [sendMessageStart_awaiting now s hp hm hs]
    rw [sendMessageResume_of_error _ x later _ e he] at hrun
    rw [← messageHtml_user] at hmsg ⊢
    refine ⟨_, Static.chatRequest (trim s.userInput), hrun, ?_, ?_, rfl, rfl, ?_, ?_⟩
    · simp only [Static.onFinally, Static.onError, Static.showError,
        Static.hideTypingIndicator, Static.typingNode]
      rw [removeTyping_append s.chatMessages _ _ _ _ hno
        (by simpa [Static.messageNode, Dom.hasId, noTyping] using hmsg)]
      simp [Static.messageNode, Static.errorNode, errorHtml_apology]
    · simp [Static.onFinally, Static.onError, Static.showError, Static.hideTypingIndicator]
    · simp [Static.onFinally, Static.onError, Static.showError, Static.hideTypingIndicator]
    · simp [Static.onFinally, Static.onError, Static.showError, Static.hideTypingIndicator]
  · intro b x hm hno hf
    obtain ⟨e, he⟩ := basic_getAIResponse_of_requestFails x hf
    have hstart : Basic.sendMessageStart b = .awaiting (trim b.userInput)
        { Basic.showTypingIndicator
            { Basic.addMessage (.str (trim b.userInput)) "user" b with userInput := "" } with
          requests := b.requests ++ [Basic.chatRequest (trim b.userInput)] } := by
      simp [Basic.sendMessageStart, hm]
    have htext : Basic.textChildren (.str (trim b.userInput)) = [.text (trim b.userInput)] := by
      simp [Basic.textChildren, Basic.toText, hm]
    refine ⟨Basic.chatRequest (trim b.userInput), ?_, ?_, rfl, rfl⟩
    · unfold Basic.sendMessage
      rw [hstart]
      simp only [Basic.sendMessageResume, he, Basic.addMessage, Basic.hideTypingIndicator,
        Basic.showTypingIndicator, List.append_assoc, List.singleton_append, Basic.typingNode]
      rw [removeTyping_append b.chatMessages _ _ _ _ hno
        (by simp [Basic.messageNode, Dom.hasId, hasId, htext])]
      simp [Basic.messageNode, htext, Basic.toText, apology]
    · unfold Basic.sendMessage
      rw [hstart]
      simp [Basic.sendMessageResume, he, Basic.addMessage, Basic.hideTypingIndicator,
        Basic.showTypingIndicator]

set_option maxRecDepth 100000 in
/-- C4, amended, at work: a request answered by status 503 in the full
controller, and a network error in the minimal one, under the reference
parser. -/
theorem failed_request_shows_apology_witness :
    (∃ (s1 : Static.Chat) (req : Request),
      Static.sendMessage ⟨"10:00", "t"⟩ ⟨.responds 40 503 (.arrives 60 ""), false⟩
        ⟨"10:01", "u"⟩ (Static.constructor refParse "hi" false [] none) = .fulfilled s1 ∧
      s1.chatMessages.map Dom.classOf = ["message user-message", "message bot-message"] ∧
      s1.requests = [req] ∧ req.method = "POST") ∧
    (∃ req : Request,
      (Basic.sendMessage ⟨.fails 7, false⟩ ⟨refParse, "hi", [], []⟩).chatMessages.map Dom.classOf
        = ["message user-message", "message bot-message"] ∧
      (Basic.sendMessage ⟨.fails 7, false⟩ ⟨refParse, "hi", [], []⟩).requests = [req] ∧
      req.method = "POST") := by
  obtain ⟨s1, req, hrun, hchat, hreq, _, hpost, _, _⟩ :=
    failed_request_shows_apology.1 (Static.constructor refParse "hi" false [] none)
      ⟨"10:00", "t"⟩ ⟨"10:01", "u"⟩ ⟨.responds 40 503 (.arrives 60 ""), false⟩
      rfl (by decide) (hasLength_arr _ [] rfl) rfl rfl (Or.inr (by decide))
  obtain ⟨req2, hchat2, hreq2, _, hpost2⟩ :=
    failed_request_shows_apology.2 ⟨refParse, "hi", [], []⟩ ⟨.fails 7, false⟩ (by decide)
      rfl trivial
  refine ⟨⟨s1, req, hrun, ?_, ?_, hpost⟩, ⟨req2, ?_, ?_, hpost2⟩⟩
  · rw [hchat]
    rfl
  · rw [hreq]
    rfl
  · rw [hchat2]
    rfl
  · rw [hreq2]
    rfl

/-! ## The abort timer (C8) -/

set_option maxRecDepth 100000 in
/-- C8 as stated fails: the status line arrives after half a second and the
body only after twenty seconds; the exchange takes more than ten seconds, yet
`getAIResponse` returns the response text and `sendMessage` appends the bot
turn and saves it. -/
theorem slow_body_is_not_timed_out :
    Static.timeoutMs < receivedAt (.responds 500 200 (.arrives 20000 "\x7b\"response\":\"hi\"\x7d")) ∧
    Static.getAIResponse ⟨.responds 500 200 (.arrives 20000 "\x7b\"response\":\"hi\"\x7d"), false⟩
      = .ok (.str "hi") ∧
    (Static.sendMessage ⟨"10:00", "t"⟩
        ⟨.responds 500 200 (.arrives 20000 "\x7b\"response\":\"hi\"\x7d"), false⟩
        ⟨"10:01", "u"⟩ (Static.constructor refParse "hello" false [] none)).state.chatMessages
      = [Static.messageNode refParse "user" "hello" "10:00",
         Static.messageNode refParse "bot" "hi" "10:01"] := by
  refine ⟨by decide, rfl, rfl⟩

theorem getResponse_not_timeout (data : JsVal) :
    getResponse data ≠ .error ⟨"Error", "Request timeout"⟩ := by
  cases data <;> simp [getResponse]

/-- C8, amended: when more than ten seconds pass before `fetch` settles (the
status line has not arrived and the connection has not failed), the call of
`getAIResponse` fails with the error `Request timeout`, and the continuation
of `sendMessage` is its failure path: the apology is shown, no bot turn is
appended and the history and the store stay as they are. When the status
line arrives before the timer, the timer is cleared: whatever the time the
body takes, the call does not fail with `Request timeout`. -/
theorem late_fetch_times_out :
    (∀ x : Exchange, Static.timeoutMs < settledAt x.net →
      Static.getAIResponse x = .error ⟨"Error", "Request timeout"⟩ ∧
      ∀ (message : String) (now : Clock) (s : Static.Chat),
        Static.sendMessageResume message x now s = Static.onFinally (Static.onError s) ∧
        (Static.sendMessageResume message x now s).chatMessages
          = removeTyping s.chatMessages ++ [Static.errorNode s.parseHtml apology] ∧
        (Static.sendMessageResume message x now s).chatHistory = s.chatHistory ∧
        (Static.sendMessageResume message x now s).storage = s.storage) ∧
    (∀ (x : Exchange) (headersAt status : Nat) (body : BodyBehaviour),
      x.net = .responds headersAt status body → headersAt < Static.timeoutMs →
      Static.getAIResponse x ≠ .error ⟨"Error", "Request timeout"⟩) := by
  refine ⟨?_, ?_⟩
  · intro x hlate
    have hg : Static.getAIResponse x = .error ⟨"Error", "Request timeout"⟩ := by
      unfold Static.getAIResponse
      cases hn : x.net with
      | fails t =>
        rw [hn] at hlate
        have : Static.timerFirst x t = true := by
          simp only [Static.timerFirst, settledAt] at hlate ⊢
          simp [hlate]
        simp only [this, if_true]
      | responds t status body =>
        rw [hn] at hlate
        have : Static.timerFirst x t = true := by
          simp only [Static.timerFirst, settledAt] at hlate ⊢
          simp [hlate]
        simp only [this, if_true]
    refine ⟨hg, ?_⟩
    intro message now s
    rw [sendMessageResume_of_error message x now s _ hg]
    simp [Static.onFinally, Static.onError, Static.showError, Static.hideTypingIndicator]
  · intro x headersAt status body hn hin
    have ht : Static.timerFirst x headersAt = false := by
      unfold Static.timerFirst
      simp only [Bool.or_eq_false_iff, decide_eq_false_iff_not, Bool.and_eq_false_iff,
        beq_eq_false_iff_ne]
      exact ⟨by omega, Or.inl (by omega)⟩
    unfold Static.getAIResponse
    rw [hn]
    simp only [ht, Bool.false_eq_true, if_false]
    by_cases hok : statusOk status = true
    · simp only [hok, if_true]
      cases body with
      | fails t => simp
      | arrives t text =>
        simp only [responseJson]
        cases hp : JSONparse text with
        | none => simp
        | some data => exact getResponse_not_timeout data
    · simp only [hok, Bool.false_eq_true, if_false]
      intro he
      have hm := congrArg (fun e => match e with
        | Except.error err => err.message.data.head?
        | Except.ok _ => none) he
      simp at hm

/-- C8, amended, at work: the status line arrives after twelve seconds. -/
theorem late_fetch_times_out_witness :
    Static.getAIResponse ⟨.responds 12000 200 (.arrives 12001 "\x7b\"response\":\"hi\"\x7d"), false⟩
      = .error ⟨"Error", "Request timeout"⟩ ∧
    Static.getAIResponse ⟨.responds 9000 200 (.arrives 60000 "\x7b\"response\":\"hi\"\x7d"), false⟩
      ≠ .error ⟨"Error", "Request timeout"⟩ :=
  ⟨(late_fetch_times_out.1
      ⟨.responds 12000 200 (.arrives 12001 "\x7b\"response\":\"hi\"\x7d"), false⟩
      (by decide)).1,
   late_fetch_times_out.2
      ⟨.responds 9000 200 (.arrives 60000 "\x7b\"response\":\"hi\"\x7d"), false⟩
      9000 200 _ rfl (by decide)⟩

/-! ## The round trip through JSON.stringify and JSON.parse -/

theorem parseHex4_control (n : Nat) (hn : n < 32) (rest : List Char) :
    parseUnicodeEscape ('0' :: '0' :: hexDigit (n / 16) :: hexDigit (n % 16) :: rest)
      = some (Char.ofNat n, rest) := by
  interval_cases n <;> rfl

theorem parseStringChars_quoteChars (cs : List Char) :
    ∀ (rest : List Char) (fuel : Nat), (quoteChars cs).length < fuel →
      parseStringChars fuel (quoteChars cs ++ '"' :: rest) = some (cs, rest) := by
  induction cs with
  | nil =>
    intro rest fuel hf
    cases fuel with
    | zero => simp at hf
    | succ f => simp [quoteChars, parseStringChars]
  | cons c cs ih =>
    intro rest fuel hf
    cases fuel with
    | zero => simp at hf
    | succ f =>
      simp only [quoteChars, List.length_append] at hf
      simp only [quoteChars, quoteChar]
      by_cases h1 : c = '"'
      · subst h1
        have := ih rest f (by simp [quoteChar] at hf; omega)
        simp [parseStringChars, simpleEscape, this]
      · by_cases h2 : c = '\\'
        · subst h2
          have := ih rest f (by simp [quoteChar] at hf; omega)
          simp [parseStringChars, simpleEscape, this]
        · by_cases h8 : c.toNat = 8
          · have hc : c = Char.ofNat 8 := by rw [← h8, Char.ofNat_toNat]
            subst hc
            have := ih rest f (by simp [quoteChar] at hf; omega)
            simp [parseStringChars, simpleEscape, this]
          · by_cases h9 : c.toNat = 9
            · have hc : c = Char.ofNat 9 := by rw [← h9, Char.ofNat_toNat]
              subst hc
              have := ih rest f (by simp [quoteChar] at hf; omega)
              simp [parseStringChars, simpleEscape, this]
            · by_cases h10 : c.toNat = 10
              · have hc : c = Char.ofNat 10 := by rw [← h10, Char.ofNat_toNat]
                subst hc
                have := ih rest f (by simp [quoteChar] at hf; omega)
                simp [parseStringChars, simpleEscape, this]
              · by_cases h12 : c.toNat = 12
                · have hc : c = Char.ofNat 12 := by rw [← h12, Char.ofNat_toNat]
                  subst hc
                  have := ih rest f (by simp [quoteChar] at hf; omega)
                  simp [parseStringChars, simpleEscape, this]
                · by_cases h13 : c.toNat = 13
                  · have hc : c = Char.ofNat 13 := by rw [← h13, Char.ofNat_toNat]
                    subst hc
                    have := ih rest f (by simp [quoteChar] at hf; omega)
                    simp [parseStringChars, simpleEscape, this]
                  · by_cases h32 : c.toNat < 32
                    · have hlen : (quoteChars cs).length < f := by
                        simp [quoteChar, h1, h2, h8, h9, h10, h12, h13, h32] at hf
                        omega
                      have hrec := ih rest f hlen
                      have hesc := parseHex4_control c.toNat h32 (quoteChars cs ++ '"' :: rest)
                      rw [Char.ofNat_toNat] at hesc
                      simp [h1, h2, h8, h9, h10, h12, h13, h32, parseStringChars, hesc, hrec]
                    · have hlen : (quoteChars cs).length < f := by
                        simp [quoteChar, h1, h2, h8, h9, h10, h12, h13, h32] at hf
                        omega
                      have hrec := ih rest f hlen
                      simp [h1, h2, h8, h9, h10, h12, h13, h32, parseStringChars, hrec]

theorem parseStringLit_quote (s : String) (rest : List Char) :
    parseStringLit (quoteChars s.data ++ '"' :: rest) = some (s, rest) := by
  unfold parseStringLit
  rw [parseStringChars_quoteChars s.data rest _ (by simp; omega)]
  rfl

theorem skipWs_quoted (s : String) (rest : List Char) :
    skipWs (quoted s rest) = quoted s rest := by
  simp [quoted, skipWs]

theorem parseValue_quoted (s : String) (rest : List Char) (f : Nat) :
    parseValue (f + 1) (quoted s rest) = some (.str s, rest) := by
  unfold parseValue quoted
  simp [parseStringLit_quote]

theorem parseMembers_quoted (k v : String) (d : Char) (rest : List Char)
    (acc : List (String × JsVal)) (f : Nat) (hd : d = ',' ∨ d = '}') :
    parseMembers (f + 2) (quoted k (':' :: quoted v (d :: rest))) acc
      = if d = ',' then parseMembers (f + 1) (skipWs rest) (objSet acc k (.str v))
        else some (objSet acc k (.str v), rest) := by
  have hv := parseValue_quoted v (d :: rest) f
  have hs := skipWs_quoted v (d :: rest)
  conv_lhs => unfold parseMembers quoted
  simp only [parseStringLit_quote, skipWs]
  rw [quoted] at hv hs
  rcases hd with hd | hd <;> subst hd <;> simp [hv, hs, skipWs]

theorem serialize_turn (t : Turn) (rest : List Char) :
    (serialize t.toJs).getD ['n', 'u', 'l', 'l'] ++ rest = turnText t rest := by
  simp [Turn.toJs, Static.turn, serialize, serializeProps, joinComma, quoteJSONString,
    quoteChars, quoteChar, turnText, quoted]

theorem parseValue_turn (t : Turn) (rest : List Char) (f : Nat) :
    parseValue (f + 5) (turnText t rest) = some (t.toJs, rest) := by
  unfold parseValue turnText
  simp only [skipWs_quoted]
  rw [show quoted "user" (':' :: quoted t.user (',' :: quoted "bot" (':' :: quoted t.bot
      (',' :: quoted "timestamp" (':' :: quoted t.timestamp ('}' :: rest))))))
      = '"' :: (quoteChars "user".data ++ '"' :: (':' :: quoted t.user (',' :: quoted "bot"
        (':' :: quoted t.bot (',' :: quoted "timestamp" (':' :: quoted t.timestamp
          ('}' :: rest))))))) from rfl]
  simp only [show ('{' : Char) ≠ '"' by decide, show ('{' : Char) ≠ '[' by decide,
    show ('"' : Char) ≠ '}' by decide, if_false, if_true]
  rw [← quoted]
  rw [parseMembers_quoted "user" t.user ',' _ [] (f + 2) (Or.inl rfl)]
  simp only [if_true, skipWs_quoted]
  rw [parseMembers_quoted "bot" t.bot ',' _ _ (f + 1) (Or.inl rfl)]
  simp only [if_true, skipWs_quoted]
  rw [parseMembers_quoted "timestamp" t.timestamp '}' _ _ f (Or.inr rfl)]
  simp only [show ('}' : Char) ≠ ',' by decide, if_false]
  rfl

theorem turnText_head (t : Turn) (rest : List Char) :
    ∃ y, turnText t rest = '{' :: y ∧ rest.length + 5 ≤ y.length := by
  refine ⟨_, rfl, ?_⟩
  simp [quoted]
  omega

theorem turnsText_head (t : Turn) (ts : List Turn) (rest : List Char) :
    ∃ y, turnsText (t :: ts) rest = '{' :: y ∧ ts.length + 5 ≤ y.length := by
  induction ts generalizing t with
  | nil =>
    obtain ⟨y, hy, hl⟩ := turnText_head t rest
    exact ⟨y, by simpa [turnsText] using hy, by simp; omega⟩
  | cons u us ih =>
    obtain ⟨z, hz, hzl⟩ := ih u
    obtain ⟨y, hy, hl⟩ := turnText_head t (',' :: turnsText (u :: us) rest)
    refine ⟨y, by simpa [turnsText] using hy, ?_⟩
    rw [hz] at hl
    simp at hl ⊢
    omega

theorem skipWs_turnsText (t : Turn) (ts : List Turn) (rest : List Char) :
    skipWs (turnsText (t :: ts) rest) = turnsText (t :: ts) rest := by
  obtain ⟨y, hy, _⟩ := turnsText_head t ts rest
  rw [hy]
  simp [skipWs]

theorem serializeItems_turns (h : List Turn) (rest : List Char) :
    joinComma (serializeItems (h.map Turn.toJs)) ++ rest = turnsText h rest := by
  induction h with
  | nil => simp [serializeItems, joinComma, turnsText]
  | cons t ts ih =>
    cases ts with
    | nil => simpa [serializeItems, joinComma, turnsText] using serialize_turn t rest
    | cons u us =>
      have h1 := serialize_turn t (',' :: turnsText (u :: us) rest)
      simp only [List.map, serializeItems, joinComma, turnsText, List.append_assoc,
        List.cons_append] at ih ⊢
      rw [ih]
      exact h1

theorem parseElements_turns (ts : List Turn) :
    ∀ (t : Turn) (rest : List Char) (f : Nat),
      parseElements (f + ts.length + 6) (turnsText (t :: ts) (']' :: rest))
        = some ((t :: ts).map Turn.toJs, rest) := by
  induction ts with
  | nil =>
    intro t rest f
    simp only [turnsText, List.length_nil, Nat.add_zero]
    unfold parseElements
    rw [parseValue_turn t (']' :: rest) f]
    simp [skipWs]
  | cons u us ih =>
    intro t rest f
    simp only [turnsText, List.length_cons]
    rw [show f + (us.length + 1) + 6 = (f + us.length + 6) + 1 by omega]
    unfold parseElements
    rw [show f + us.length + 6 = (f + us.length + 1) + 5 by omega,
      parseValue_turn t (',' :: turnsText (u :: us) (']' :: rest)) (f + us.length + 1)]
    simp only [skipWs, show ¬ ((',' : Char) = ' ' ∨ (',' : Char) = '\t' ∨ (',' : Char) = '\n'
      ∨ (',' : Char) = '\r') by decide, if_false, if_true, skipWs_turnsText]
    rw [show f + us.length + 1 + 5 = f + us.length + 6 by omega, ih u rest f]
    rfl

theorem serialize_history (h : List Turn) :
    JSONstringify (historyVal h) = some (String.mk ('[' :: turnsText h [']'])) := by
  simp [JSONstringify, historyVal, serialize, serializeItems_turns]

/-- The round trip of a history of chat turns through `JSON.stringify` and
`JSON.parse`. -/
theorem JSONparse_history (h : List Turn) :
    JSONparse (String.mk ('[' :: turnsText h [']'])) = some (historyVal h) := by
  cases h with
  | nil => rfl
  | cons t ts =>
    obtain ⟨y, hy, hl⟩ := turnsText_head t ts [']']
    have hp := parseElements_turns ts t [] (y.length - ts.length - 4)
    rw [hy, show y.length - ts.length - 4 + ts.length + 6 = y.length + 2 by omega] at hp
    unfold JSONparse
    simp only [hy, skipWs, show ¬ (('[' : Char) = ' ' ∨ ('[' : Char) = '\t' ∨ ('[' : Char) = '\n'
      ∨ ('[' : Char) = '\r') by decide, if_false, List.length_cons]
    unfold parseValue
    simp [skipWs, hp, historyVal]

theorem requestBody_eq (m : String) :
    requestBody m = String.mk ('{' :: quoted "message" (':' :: quoted m ['}'])) := by
  simp [requestBody, JSONstringify, serialize, serializeProps, joinComma, quoteJSONString,
    quoted]

theorem parseValue_single (k v : String) (rest : List Char) (f : Nat) :
    parseValue (f + 3) ('{' :: quoted k (':' :: quoted v ('}' :: rest)))
      = some (.obj (objSet [] k (.str v)), rest) := by
  unfold parseValue
  simp only [skipWs_quoted]
  rw [show quoted k (':' :: quoted v ('}' :: rest))
      = '"' :: (quoteChars k.data ++ '"' :: (':' :: quoted v ('}' :: rest))) from rfl]
  simp only [show ('{' : Char) ≠ '"' by decide, show ('{' : Char) ≠ '[' by decide,
    show ('"' : Char) ≠ '}' by decide, if_false, if_true]
  rw [← quoted]
  rw [parseMembers_quoted k v '}' _ [] f (Or.inr rfl)]
  simp only [show ('}' : Char) ≠ ',' by decide, if_false]
  rfl

/-- The request body parses to the object with the one property `message`. -/
theorem JSONparse_requestBody (m : String) :
    JSONparse (requestBody m) = some (.obj [("message", .str m)]) := by
  rw [requestBody_eq]
  unfold JSONparse
  simp only [skipWs, show ¬ (('{' : Char) = ' ' ∨ ('{' : Char) = '\t' ∨ ('{' : Char) = '\n'
    ∨ ('{' : Char) = '\r') by decide, if_false, List.length_cons]
  have hq : (quoted "message" (':' :: quoted m ['}'])).length + 1 + 1
      = ((quoted "message" (':' :: quoted m ['}'])).length - 1) + 3 := by
    simp [quoted]
  rw [hq, parseValue_single "message" m [] _]
  rfl

/-! ## A successful exchange (C5) -/

theorem getAIResponse_success (x : Exchange) (headersAt status doneAt : Nat) (text : String)
    (props : List (String × JsVal)) (r : JsVal)
    (hnet : x.net = .responds headersAt status (.arrives doneAt text))
    (hin : headersAt < Static.timeoutMs) (hok : statusOk status = true)
    (hbody : JSONparse text = some (.obj props)) (hr : lookupProp "response" props = r) :
    Static.getAIResponse x = .ok r := by
  have ht : Static.timerFirst x headersAt = false := by
    unfold Static.timerFirst
    simp only [Bool.or_eq_false_iff, decide_eq_false_iff_not, Bool.and_eq_false_iff,
      beq_eq_false_iff_ne]
    exact ⟨by omega, Or.inl (by omega)⟩
  unfold Static.getAIResponse
  rw [hnet]
  simp [ht, hok, responseJson, hbody, getResponse, hr]

theorem stringify_arr (items : List JsVal) :
    ∃ text, JSONstringify (.arr items) = some text := by
  refine ⟨String.mk ('[' :: (joinComma (serializeItems items) ++ [']'])), ?_⟩
  simp [JSONstringify, serialize]

theorem pushCapped_getLast (h : List JsVal) (t : JsVal) :
    (Static.pushCapped h t).getLast? = some t := by
  unfold Static.pushCapped
  split
  · cases h with
    | nil => simp [Static.historyCap] at *
    | cons a as => simp
  · simp

theorem sendMessageResume_success (message r : String) (x : Exchange) (now : Clock)
    (s : Static.Chat) (h : List JsVal) (hg : Static.getAIResponse x = .ok (.str r))
    (hs : s.chatHistory = .arr h) :
    Static.sendMessageResume message x now s =
      { s with
        isProcessing := false
        sendDisabled := false
        chatMessages := removeTyping s.chatMessages ++
          [Static.messageNode s.parseHtml "bot" (Static.formatText r) now.localeTime]
        chatHistory := .arr (Static.pushCapped h (Static.turn message (.str r) now.iso))
        storage := some ((JSONstringify
          (.arr (Static.pushCapped h (Static.turn message (.str r) now.iso)))).getD
            "undefined") } := by
  unfold Static.sendMessageResume
  rw [hg]
  simp [Static.onResponse, Static.addMessage, Static.formatMessage, Static.readLength,
    Static.hideTypingIndicator, hs, Static.saveToHistory, Static.onFinally]

theorem messageHtml_bot (formatted timestamp : String) :
    Static.messageHtml "bot" formatted timestamp
      = "\n            <div class=\"message-content\">\n                <strong>MindBridge:</strong> "
        ++ formatted ++ "\n                <span class=\"message-time\">" ++ timestamp
        ++ "</span>\n            </div>\n        " := by
  simp [Static.messageHtml, String.append_assoc]

set_option maxRecDepth 100000 in
/-- C5 as stated fails: the message `<b id="typing-indicator">x</b>` goes into
the chat as markup, so its `b` element is the first element that bears the id
of the typing indicator. When the response arrives, `hideTypingIndicator`
takes that element out of the user message and leaves the indicator where it
is: the chat ends with three elements, and the typing indicator stands
between the user turn and the bot turn. -/
theorem markup_id_keeps_indicator_after_success :
    (Static.sendMessage ⟨"10:00", "t"⟩
      ⟨.responds 40 200 (.arrives 60 "\x7b\"response\":\"yo\"\x7d"), false⟩ ⟨"10:01", "u"⟩
      (Static.constructor refParse "<b id=\"typing-indicator\">x</b>" false []
        none)).state.chatMessages.map Dom.idOf = ["", "typing-indicator", ""] ∧
    (Static.sendMessage ⟨"10:00", "t"⟩
      ⟨.responds 40 200 (.arrives 60 "\x7b\"response\":\"yo\"\x7d"), false⟩ ⟨"10:01", "u"⟩
      (Static.constructor refParse "<b id=\"typing-indicator\">x</b>" false []
        none)).state.chatMessages.map Dom.classOf
      = ["message user-message", "message bot-message", "message bot-message"] ∧
    (Static.sendMessage ⟨"10:00", "t"⟩
      ⟨.responds 40 200 (.arrives 60 "\x7b\"response\":\"yo\"\x7d"), false⟩ ⟨"10:01", "u"⟩
      (Static.constructor refParse "<b id=\"typing-indicator\">x</b>" false []
        none)).state.chatMessages.drop 1
      = [Static.typingNode refParse, Static.messageNode refParse "bot" "yo" "10:01"] := by
  refine ⟨rfl, rfl, rfl⟩

/-- C5, amended: an idle controller whose history is an array and in whose
chat no element bears the id `typing-indicator` at any depth, the markup of
the user message included, sends a non-blank input; the status line of a 2xx
response arrives before the timer and the body is a JSON object whose
property `response` is the string `r`. Then the call is fulfilled; exactly
one request was issued, a POST to `/api/chat` whose body parses to the
object with the one property `message` holding the trimmed input; the chat
gains the user message and then the bot message for `r`; the history gains
as its last entry the turn of the trimmed input and `r`; and the store holds
the JSON text of that history. -/
theorem successful_exchange (s : Static.Chat) (h : List JsVal) (now later : Clock)
    (x : Exchange) (headersAt status doneAt : Nat) (text r : String)
    (props : List (String × JsVal))
    (hp : s.isProcessing = false) (hm : trim s.userInput ≠ "") (hs : s.chatHistory = .arr h)
    (hno : noTyping s.chatMessages)
    (hmsg : noTyping (s.parseHtml
      ("\n            <div class=\"message-content\">\n                <strong>You:</strong> "
        ++ Static.formatText (trim s.userInput)
        ++ "\n                <span class=\"message-time\">" ++ now.localeTime
        ++ "</span>\n            </div>\n        ")))
    (hnet : x.net = .responds headersAt status (.arrives doneAt text))
    (hin : headersAt < Static.timeoutMs) (hok : statusOk status = true)
    (hbody : JSONparse text = some (.obj props))
    (hr : lookupProp "response" props = .str r) :
    ∃ (s1 : Static.Chat) (req : Request) (h1 : List JsVal),
      Static.sendMessage now x later s = .fulfilled s1 ∧
      s1.requests = s.requests ++ [req] ∧
      req.url = "/api/chat" ∧ req.method = "POST" ∧
      JSONparse req.body = some (.obj [("message", .str (trim s.userInput))]) ∧
      s1.chatMessages = s.chatMessages ++
        [.element "div" "" "message user-message" (s.parseHtml
          ("\n            <div class=\"message-content\">\n                <strong>You:</strong> "
            ++ Static.formatText (trim s.userInput)
            ++ "\n                <span class=\"message-time\">" ++ now.localeTime
            ++ "</span>\n            </div>\n        ")),
         .element "div" "" "message bot-message" (s.parseHtml
          ("\n            <div class=\"message-content\">\n                <strong>MindBridge:</strong> "
            ++ Static.formatText r
            ++ "\n                <span class=\"message-time\">" ++ later.localeTime
            ++ "</span>\n            </div>\n        "))] ∧
      s1.chatHistory = .arr h1 ∧
      h1 = Static.pushCapped h (.obj [("user", .str (trim s.userInput)), ("bot", .str r),
        ("timestamp", .str later.iso)]) ∧
      h1.getLast? = some (.obj [("user", .str (trim s.userInput)), ("bot", .str r),
        ("timestamp", .str later.iso)]) ∧
      (∃ stored, s1.storage = some stored ∧ JSONstringify s1.chatHistory = some stored) := by
  have hg := getAIResponse_success x headersAt status doneAt text props (.str r) hnet hin hok
    hbody hr
  have hrun : Static.sendMessage now x later s = .fulfilled
      (Static.sendMessageResume (trim s.userInput) x later
        { s with
          isProcessing := true
          sendDisabled := true
          userInput := ""
          chatMessages := s.chatMessages ++
            [Static.messageNode s.parseHtml "user" (Static.formatText (trim s.userInput))
              now.localeTime,
             Static.typingNode s.parseHtml]
          requests := s.requests ++ [Static.chatRequest (trim s.userInput)] }) := by
    unfold Static.sendMessage
    rw [sendMessageStart_awaiting now s hp hm (hasLength_arr _ h hs)]
  rw [sendMessageResume_success _ r x later _ h hg (by simpa using hs)] at hrun
  obtain ⟨stored, hstored⟩ := stringify_arr
    (Static.pushCapped h (Static.turn (trim s.userInput) (.str r) later.iso))
  rw [← messageHtml_user] at hmsg ⊢
  rw [← messageHtml_bot]
  refine ⟨_, Static.chatRequest (trim s.userInput), _, hrun, rfl, rfl, rfl,
    JSONparse_requestBody _, ?_, rfl, rfl, ?_, ⟨stored, ?_, ?_⟩⟩
  · simp only [Static.typingNode]
    rw [removeTyping_append s.chatMessages _ _ _ _ hno
      (by simpa [Static.messageNode, Dom.hasId, noTyping] using hmsg)]
    simp [Static.messageNode]
  · exact pushCapped_getLast _ _
  · simp [hstored]
  · simpa using hstored

set_option maxRecDepth 100000 in
/-- C5, amended, at work: a message answered by `yo`, under the reference
parser. -/
theorem successful_exchange_witness :
    ∃ (s1 : Static.Chat) (req : Request),
      Static.sendMessage ⟨"10:00", "t"⟩
        ⟨.responds 40 200 (.arrives 60 "\x7b\"response\":\"yo\"\x7d"), false⟩ ⟨"10:01", "u"⟩
        (Static.constructor refParse " hi " false [] none) = .fulfilled s1 ∧
      s1.requests = [req] ∧ req.method = "POST" ∧
      JSONparse req.body = some (.obj [("message", .str "hi")]) ∧
      s1.chatMessages.map Dom.classOf = ["message user-message", "message bot-message"] ∧
      s1.chatHistory
        = .arr [.obj [("user", .str "hi"), ("bot", .str "yo"), ("timestamp", .str "u")]] := by
  obtain ⟨s1, req, h1, hrun, hreq, _, hpost, hbody, hchat, hhist, hh1, _, _⟩ :=
    successful_exchange (Static.constructor refParse " hi " false [] none) []
      ⟨"10:00", "t"⟩ ⟨"10:01", "u"⟩
      ⟨.responds 40 200 (.arrives 60 "\x7b\"response\":\"yo\"\x7d"), false⟩
      40 200 60 "\x7b\"response\":\"yo\"\x7d" "yo" [("response", .str "yo")]
      rfl (by decide) rfl rfl rfl rfl (by decide) rfl rfl rfl
  refine ⟨s1, req, hrun, ?_, hpost, ?_, ?_, ?_⟩
  · rw [hreq]
    rfl
  · rw [hbody]
    rfl
  · rw [hchat]
    rfl
  · rw [hhist, hh1]
    rfl

/-! ## Save and load (C9) -/

theorem pushCapped_turns (h : List Turn) (t : Turn) :
    ∃ h1 : List Turn, Static.pushCapped (h.map Turn.toJs) t.toJs = h1.map Turn.toJs := by
  unfold Static.pushCapped
  split
  · exact ⟨(h ++ [t]).tail, by simp [List.map_tail]⟩
  · exact ⟨h ++ [t], by simp⟩

theorem mk_cons_ne_empty (c : Char) (cs : List Char) : String.mk (c :: cs) ≠ "" := by
  intro he
  have := congrArg String.data he
  simp at this

theorem constructor_of_history (parseHtml : String → List Dom) (userInput : String)
    (sendDisabled : Bool) (chatMessages : List Dom) (h : List Turn) :
    (Static.constructor parseHtml userInput sendDisabled chatMessages
      (some (String.mk ('[' :: turnsText h [']'])))).chatHistory = historyVal h := by
  simp [Static.constructor, Static.loadChatHistory, mk_cons_ne_empty, JSONparse_history]

/-- C9: after `saveToHistory` on a history of chat turns, the item in the
store is the JSON text of the whole new history, that text parses back to
the same array, and a controller constructed afresh over the store has
exactly the same history, turn by turn in the same order. -/
theorem load_after_save_restores_history (s : Static.Chat) (h : List Turn)
    (userMessage botResponse : String) (now : Clock) (hs : s.chatHistory = historyVal h)
    (parseHtml : String → List Dom) (userInput : String) (sendDisabled : Bool)
    (chatMessages : List Dom) :
    ∃ (s1 : Static.Chat) (h1 : List Turn) (text : String),
      Static.saveToHistory userMessage (.str botResponse) now s = .ok s1 ∧
      s1.chatHistory = historyVal h1 ∧
      s1.storage = some text ∧ JSONstringify s1.chatHistory = some text ∧
      JSONparse text = some s1.chatHistory ∧
      (Static.constructor parseHtml userInput sendDisabled chatMessages s1.storage).chatHistory
        = s1.chatHistory := by
  obtain ⟨h1, hh1⟩ := pushCapped_turns h ⟨userMessage, botResponse, now.iso⟩
  have hsave := saveToHistory_arr s (h.map Turn.toJs) userMessage (.str botResponse) now hs
  have hturn : Static.turn userMessage (.str botResponse) now.iso
      = Turn.toJs ⟨userMessage, botResponse, now.iso⟩ := rfl
  rw [hturn, hh1] at hsave
  have hstr := serialize_history h1
  unfold historyVal at hstr
  refine ⟨_, h1, String.mk ('[' :: turnsText h1 [']']), hsave, rfl, ?_, ?_, ?_, ?_⟩
  · simp [hstr]
  · exact hstr
  · exact JSONparse_history h1
  · simp only [hstr, Option.getD_some]
    exact constructor_of_history parseHtml userInput sendDisabled chatMessages h1

/-- C9 at work: a second turn saved after a first one. -/
theorem load_after_save_restores_history_witness :
    ∃ (s1 : Static.Chat) (h1 : List Turn) (text : String),
      Static.saveToHistory "how are you" (.str "fine") ⟨"10:01", "u"⟩
        { parseHtml := refParse, isProcessing := false,
          chatHistory := historyVal [⟨"hi", "yo", "t"⟩],
          userInput := "", sendDisabled := false, chatMessages := [], storage := none,
          requests := [] } = .ok s1 ∧
      s1.chatHistory = historyVal h1 ∧
      s1.storage = some text ∧ JSONstringify s1.chatHistory = some text ∧
      JSONparse text = some s1.chatHistory ∧
      (Static.constructor refParse "" false [] s1.storage).chatHistory = s1.chatHistory :=
  load_after_save_restores_history
    { parseHtml := refParse, isProcessing := false,
      chatHistory := historyVal [⟨"hi", "yo", "t"⟩],
      userInput := "", sendDisabled := false, chatMessages := [], storage := none,
      requests := [] }
    [⟨"hi", "yo", "t"⟩] "how are you" "fine" ⟨"10:01", "u"⟩ rfl refParse "" false []

/-! ## The cap over all reachable states (C2) -/

theorem run_history_cap (events : List Static.Event) :
    ∀ (sys : Static.Sys) (h : List JsVal), sys.chat.chatHistory = .arr h → h.length ≤ 100 →
      ∃ h1, (Static.run sys events).chat.chatHistory = .arr h1 ∧ h1.length ≤ 100 := by
  induction events with
  | nil =>
    intro sys h hs hlen
    exact ⟨h, hs, hlen⟩
  | cons e es ih =>
    intro sys h hs hlen
    rcases step_history sys e h hs with h1 | ⟨t, h1⟩
    · exact ih (Static.step sys e) h h1 hlen
    · exact ih (Static.step sys e) _ h1 (pushCapped_length h t hlen)

theorem pushCapped_length_full (h : List JsVal) (t : JsVal) (hlen : 100 ≤ h.length) :
    (Static.pushCapped h t).length = h.length := by
  rw [pushCapped_full h t hlen]
  simp
  omega

theorem run_history_stays_long (events : List Static.Event) :
    ∀ (sys : Static.Sys) (h : List JsVal), sys.chat.chatHistory = .arr h → h.length = 101 →
      arrayLength (Static.run sys events).chat.chatHistory = some 101 := by
  induction events with
  | nil =>
    intro sys h hs hlen
    simp [Static.run, hs, arrayLength, hlen]
  | cons e es ih =>
    intro sys h hs hlen
    rcases step_history sys e h hs with h1 | ⟨t, h1⟩
    · exact ih (Static.step sys e) h h1 hlen
    · exact ih (Static.step sys e) _ h1 (by rw [pushCapped_length_full h t (by omega), hlen])

/-- C2 fails on the code: over a stored item that holds an array of 101 turns
the constructor leaves a history of length 101, and the length is still 101
after a further `saveToHistory`, which pushes one entry and shifts one where
its comment promises the last 100, and after a whole exchange of
`sendMessage`. -/
theorem long_stored_history_exceeds_cap :
    arrayLength (Static.constructor refParse "hi" false [] (some longStored)).chatHistory = some 101 ∧
    arrayLength (Static.run (Static.boot refParse "hi" false [] (some longStored))
      [.save "u" (.str "b") ⟨"10:00", "t"⟩]).chat.chatHistory = some 101 ∧
    arrayLength (Static.run (Static.boot refParse "hi" false [] (some longStored))
      [.send ⟨"10:00", "t"⟩,
       .settle 0 ⟨.responds 40 200 (.arrives 60 "\x7b\"response\":\"yo\"\x7d"), false⟩
        ⟨"10:01", "u"⟩]).chat.chatHistory = some 101 := by
  have hc : (Static.constructor refParse "hi" false [] (some longStored)).chatHistory
      = historyVal (List.replicate 101 ⟨"a", "b", "t"⟩) := by
    unfold longStored
    rw [serialize_history]
    exact constructor_of_history refParse "hi" false [] _
  refine ⟨?_, ?_, ?_⟩
  · rw [hc]
    simp [historyVal, arrayLength]
  · exact run_history_stays_long _ _ _ hc (by simp)
  · exact run_history_stays_long _ _ _ hc (by simp)

/-- Where the cap holds: when the stored item is absent, empty, rejected by
`JSON.parse`, or a JSON array of at most 100 entries, then after the
constructor and any sequence of input changes, calls of `sendMessage`,
completions of requests and calls of `saveToHistory` the history is an array
of at most 100 entries. -/
theorem history_cap_from_capped_store (parseHtml : String → List Dom) (userInput : String)
    (sendDisabled : Bool) (chatMessages : List Dom) (storage : Option String)
    (hst : ∀ saved, storage = some saved →
      saved = "" ∨ JSONparse saved = none ∨
        ∃ h, JSONparse saved = some (.arr h) ∧ h.length ≤ 100)
    (events : List Static.Event) :
    ∃ h, (Static.run (Static.boot parseHtml userInput sendDisabled chatMessages storage)
        events).chat.chatHistory = .arr h ∧ h.length ≤ 100 := by
  have hinit : ∃ h,
      (Static.boot parseHtml userInput sendDisabled chatMessages storage).chat.chatHistory
        = .arr h ∧ h.length ≤ 100 := by
    cases storage with
    | none => exact ⟨[], rfl, by simp⟩
    | some saved =>
      rcases hst saved rfl with he | hn | ⟨h, hp, hl⟩
      · exact ⟨[], by simp [Static.boot, Static.constructor, Static.loadChatHistory, he], by simp⟩
      · by_cases he : saved = ""
        · exact ⟨[], by simp [Static.boot, Static.constructor, Static.loadChatHistory, he],
            by simp⟩
        · exact ⟨[], by simp [Static.boot, Static.constructor, Static.loadChatHistory, he, hn],
            by simp⟩
      · by_cases he : saved = ""
        · exact ⟨[], by simp [Static.boot, Static.constructor, Static.loadChatHistory, he],
            by simp⟩
        · exact ⟨h, by simp [Static.boot, Static.constructor, Static.loadChatHistory, he, hp],
            hl⟩
  obtain ⟨h, hs, hl⟩ := hinit
  exact run_history_cap events _ h hs hl

/-! ## formatMessage (C10) -/

theorem rmatch_word {R : Type} (w : List Char) (hw : w ≠ []) :
    ∀ (s : List Char) (caps : List (List Char)) (k : List Char → List (List Char) → Option R),
      rmatch (Regex.word w) s caps k
        = match stripWord w s with
          | some r => k r caps
          | none => none := by
  induction w with
  | nil => exact absurd rfl hw
  | cons c w ih =>
    intro s caps k
    cases w with
    | nil =>
      cases s with
      | nil => simp [Regex.word, rmatch, stripWord]
      | cons x xs =>
        by_cases hx : x = c
        · simp [Regex.word, rmatch, stripWord, Atom.accepts, hx]
        · simp [Regex.word, rmatch, stripWord, Atom.accepts, hx]
    | cons d ds =>
      have ih1 := ih (by simp)
      cases s with
      | nil => simp [Regex.word, rmatch, stripWord]
      | cons x xs =>
        by_cases hx : x = c
        · simp only [Regex.word, rmatch, Atom.accepts, hx, beq_self_eq_true, if_true]
          rw [ih1]
          simp [stripWord]
        · simp [Regex.word, rmatch, stripWord, Atom.accepts, hx]

theorem plusLoop_total {R : Type} (a : Atom) (f : List Char → R) (cs : List Char) :
    plusLoop a (fun rest => some (f rest)) cs = some (f (cs.dropWhile a.accepts)) := by
  induction cs with
  | nil => simp [plusLoop]
  | cons c cs ih =>
    by_cases hc : a.accepts c = true
    · simp [plusLoop, hc, ih, List.dropWhile]
    · simp [plusLoop, hc, List.dropWhile]

theorem stripWord_append (a b s : List Char) :
    stripWord (a ++ b) s = (stripWord a s).bind (stripWord b) := by
  induction a generalizing s with
  | nil => simp [stripWord]
  | cons c a ih =>
    cases s with
    | nil => simp [stripWord]
    | cons x xs =>
      by_cases hx : x = c
      · simp [stripWord, hx, ih]
      · simp [stripWord, hx]


theorem rmatch_seq {R : Type} (a b : Regex) (s : List Char) (caps : List (List Char))
    (k : List Char → List (List Char) → Option R) :
    rmatch (.seq a b) s caps k = rmatch a s caps (fun s1 caps1 => rmatch b s1 caps1 k) := by
  simp [rmatch]

theorem rmatch_opt {R : Type} (a : Regex) (s : List Char) (caps : List (List Char))
    (k : List Char → List (List Char) → Option R) :
    rmatch (.opt a) s caps k
      = match rmatch a s caps k with
        | some r => some r
        | none => k s caps := by
  simp [rmatch]

theorem rmatch_group {R : Type} (a : Regex) (s : List Char) (caps : List (List Char))
    (k : List Char → List (List Char) → Option R) :
    rmatch (.group a) s caps k
      = rmatch a s caps (fun rest caps1 => k rest (caps1 ++ [consumed s rest])) := by
  simp [rmatch]

theorem rmatch_tail (s y : List Char) :
    rmatch (.seq (Regex.word [':', '/', '/']) (.plus .notSpace)) y []
        (fun rest caps1 => some (rest, caps1 ++ [consumed s rest]))
      = match stripWord [':', '/', '/'] y with
        | some (c :: t) =>
          if isJsSpace c then none
          else some (t.dropWhile (fun x => !isJsSpace x),
            [consumed s (t.dropWhile (fun x => !isJsSpace x))])
        | _ => none := by
  have ha : Atom.notSpace.accepts = (fun x => !isJsSpace x) := by
    funext x
    rfl
  rw [rmatch_seq, rmatch_word _ (by decide)]
  cases hz : stripWord [':', '/', '/'] y with
  | none => rfl
  | some z =>
    cases z with
    | nil => simp [rmatch]
    | cons c t =>
      by_cases hc : isJsSpace c = true
      · simp [rmatch, Atom.accepts, hc]
      · simp only [rmatch, Atom.accepts, hc, Bool.not_false, if_true]
        rw [plusLoop_total Atom.notSpace
          (fun rest => (rest, ([] : List (List Char)) ++ [consumed s rest])) t]
        simp [hc, ha]

theorem rmatch_atom_cons {R : Type} (a : Atom) (c : Char) (cs : List Char)
    (caps : List (List Char)) (k : List Char → List (List Char) → Option R) :
    rmatch (.atom a) (c :: cs) caps k = if a.accepts c then k cs caps else none := by
  simp [rmatch]

theorem rmatch_atom_nil {R : Type} (a : Atom) (caps : List (List Char))
    (k : List Char → List (List Char) → Option R) :
    rmatch (.atom a) [] caps k = none := by
  simp [rmatch]

theorem regexExec_url (s : List Char) :
    regexExec Static.urlRegex s
      = if isUrlStart s then some (afterUrl s, [consumed s (afterUrl s)]) else none := by
  have hs1 : ∀ y, stripWord "https://".data y
      = (stripWord ['h', 't', 't', 'p'] y).bind (stripWord ['s', ':', '/', '/']) := by
    intro y
    rw [← stripWord_append]
    rfl
  have hs2 : ∀ y, stripWord "http://".data y
      = (stripWord ['h', 't', 't', 'p'] y).bind (stripWord [':', '/', '/']) := by
    intro y
    rw [← stripWord_append]
    rfl
  have hw : Static.urlRegex = .group (.seq (Regex.word ['h', 't', 't', 'p'])
      (.seq (.opt (.atom (.chr 's')))
        (.seq (Regex.word [':', '/', '/']) (.plus .notSpace)))) := rfl
  unfold regexExec isUrlStart afterUrl afterScheme
  rw [hw, rmatch_group, rmatch_seq, rmatch_word _ (by decide), hs1, hs2]
  cases h1 : stripWord ['h', 't', 't', 'p'] s with
  | none => simp
  | some r1 =>
    simp only [Option.some_bind, List.nil_append]
    rw [rmatch_seq, rmatch_opt]
    cases r1 with
    | nil =>
      rw [rmatch_atom_nil]
      simp only [rmatch_tail]
      simp [stripWord]
    | cons x r =>
      rw [rmatch_atom_cons]
      by_cases hx : x = 's'
      · subst hx
        have hno : stripWord [':', '/', '/'] ('s' :: r) = none := by simp [stripWord]
        have hyes : stripWord ['s', ':', '/', '/'] ('s' :: r) = stripWord [':', '/', '/'] r := by
          simp [stripWord]
        simp only [Atom.accepts, beq_self_eq_true, if_true, rmatch_tail, hno, hyes]
        cases hz : stripWord [':', '/', '/'] r with
        | none => simp
        | some z =>
          cases z with
          | nil => simp
          | cons c t =>
            by_cases hc : isJsSpace c = true
            · simp [hc]
            · simp [hc]
      · have hno : stripWord ['s', ':', '/', '/'] (x :: r) = none := by simp [stripWord, hx]
        simp only [Atom.accepts, beq_iff_eq, hx, if_false, rmatch_tail, hno]
        cases hz : stripWord [':', '/', '/'] (x :: r) with
        | none => simp
        | some z =>
          cases z with
          | nil => simp
          | cons c t =>
            by_cases hc : isJsSpace c = true
            · simp [hc]
            · simp [hc]


theorem getSubstitution_anchor (matched before after url : List Char) :
    getSubstitution matched before after [url] Static.anchorTemplate = anchor url := by
  rfl

theorem stripWord_some_iff (w s r : List Char) : stripWord w s = some r ↔ s = w ++ r := by
  induction w generalizing s with
  | nil => simp [stripWord, eq_comm]
  | cons c w ih =>
    cases s with
    | nil => simp [stripWord]
    | cons x xs =>
      by_cases hx : x = c
      · simp [stripWord, hx, ih]
      · simp [stripWord, hx]

theorem isUrlStart_iff (s : List Char) :
    isUrlStart s = true ↔ ∃ c t, isJsSpace c = false ∧
      (s = "https://".data ++ c :: t ∨ s = "http://".data ++ c :: t) := by
  unfold isUrlStart afterScheme
  constructor
  · intro h
    cases h1 : stripWord "https://".data s with
    | some r =>
      rw [h1] at h
      cases r with
      | nil => simp at h
      | cons c t =>
        exact ⟨c, t, by simpa using h, Or.inl ((stripWord_some_iff _ _ _).1 h1)⟩
    | none =>
      rw [h1] at h
      cases h2 : stripWord "http://".data s with
      | none => rw [h2] at h; simp at h
      | some r =>
        rw [h2] at h
        cases r with
        | nil => simp at h
        | cons c t =>
          exact ⟨c, t, by simpa using h, Or.inr ((stripWord_some_iff _ _ _).1 h2)⟩
  · rintro ⟨c, t, hc, hs | hs⟩
    · subst hs
      simp [stripWord, hc]
    · subst hs
      simp [stripWord, hc]

theorem afterUrl_eq (c : Char) (t : List Char) :
    afterUrl ("https://".data ++ c :: t) = t.dropWhile (fun x => !isJsSpace x) ∧
    afterUrl ("http://".data ++ c :: t) = t.dropWhile (fun x => !isJsSpace x) := by
  constructor <;> simp [afterUrl, afterScheme, stripWord]

theorem dropWhile_length_le (p : Char → Bool) (t : List Char) :
    (t.dropWhile p).length ≤ t.length := by
  induction t with
  | nil => simp
  | cons c t ih =>
    by_cases hc : p c = true
    · simp [List.dropWhile, hc]
      omega
    · simp [List.dropWhile, hc]

theorem afterUrl_length (s : List Char) (h : isUrlStart s = true) :
    (afterUrl s).length < s.length := by
  obtain ⟨c, t, _, hs | hs⟩ := (isUrlStart_iff s).1 h
  · subst hs
    rw [(afterUrl_eq c t).1]
    have := dropWhile_length_le (fun x => !isJsSpace x) t
    simp
    omega
  · subst hs
    rw [(afterUrl_eq c t).2]
    have := dropWhile_length_le (fun x => !isJsSpace x) t
    simp
    omega

theorem replaceLoop_step (f : Nat) (b s : List Char) :
    replaceLoop Static.urlRegex Static.anchorTemplate (f + 1) b s
      = if isUrlStart s then
          anchor (consumed s (afterUrl s)) ++
            replaceLoop Static.urlRegex Static.anchorTemplate f (b ++ consumed s (afterUrl s))
              (afterUrl s)
        else
          match s with
          | [] => []
          | c :: cs => c :: replaceLoop Static.urlRegex Static.anchorTemplate f (b ++ [c]) cs := by
  have h0 : replaceLoop Static.urlRegex Static.anchorTemplate (f + 1) b s
      = match regexExec Static.urlRegex s with
        | none =>
          match s with
          | [] => []
          | c :: cs => c :: replaceLoop Static.urlRegex Static.anchorTemplate f (b ++ [c]) cs
        | some (rest, caps) =>
          getSubstitution (consumed s rest) b rest caps Static.anchorTemplate ++
            (if rest.length < s.length then
              replaceLoop Static.urlRegex Static.anchorTemplate f (b ++ consumed s rest) rest
            else
              match s with
              | [] => []
              | c :: cs =>
                c :: replaceLoop Static.urlRegex Static.anchorTemplate f (b ++ [c]) cs) := rfl
  rw [h0, regexExec_url]
  by_cases h : isUrlStart s = true
  · simp only [h, if_true, getSubstitution_anchor, afterUrl_length s h]
  · simp only [h]
    rfl


theorem replaceLoop_indep (f : Nat) :
    ∀ (s b : List Char) (g : Nat) (b1 : List Char), s.length < f → s.length < g →
      replaceLoop Static.urlRegex Static.anchorTemplate f b s
        = replaceLoop Static.urlRegex Static.anchorTemplate g b1 s := by
  induction f with
  | zero => intro s b g b1 hf; simp at hf
  | succ f ih =>
    intro s b g b1 hf hg
    cases g with
    | zero => simp at hg
    | succ g =>
      rw [replaceLoop_step, replaceLoop_step]
      by_cases h : isUrlStart s = true
      · have hl := afterUrl_length s h
        simp only [h, if_true]
        rw [ih (afterUrl s) _ g (b1 ++ consumed s (afterUrl s)) (by omega) (by omega)]
      · simp only [h]
        cases s with
        | nil => rfl
        | cons c cs =>
          simp only [List.length_cons] at hf hg
          simp only [Bool.false_eq_true, if_false]
          rw [ih cs _ g (b1 ++ [c]) (by omega) (by omega)]

theorem replaceLoop_no_url (s : List Char) :
    ∀ (f : Nat) (b : List Char), (∀ i, isUrlStart (s.drop i) = false) → s.length < f →
      replaceLoop Static.urlRegex Static.anchorTemplate f b s = s := by
  induction s with
  | nil =>
    intro f b hno hf
    cases f with
    | zero => simp at hf
    | succ f =>
      rw [replaceLoop_step]
      have h0 := hno 0
      simp only [List.drop] at h0
      simp [h0]
  | cons c cs ih =>
    intro f b hno hf
    cases f with
    | zero => simp at hf
    | succ f =>
      rw [replaceLoop_step]
      have h0 := hno 0
      simp only [List.drop] at h0
      simp only [h0, Bool.false_eq_true, if_false]
      rw [ih f (b ++ [c]) (fun i => by simpa using hno (i + 1)) (by simp at hf; omega)]

theorem replaceLoop_skip (pre : List Char) :
    ∀ (rest : List Char) (f : Nat) (b : List Char),
      (∀ i, i < pre.length → isUrlStart ((pre ++ rest).drop i) = false) →
      (pre ++ rest).length < f →
      replaceLoop Static.urlRegex Static.anchorTemplate f b (pre ++ rest)
        = pre ++ replaceLoop Static.urlRegex Static.anchorTemplate (rest.length + 1) [] rest := by
  induction pre with
  | nil =>
    intro rest f b _ hf
    simp only [List.nil_append] at hf ⊢
    exact replaceLoop_indep f rest b _ [] hf (by omega)
  | cons c pre ih =>
    intro rest f b hno hf
    cases f with
    | zero => simp at hf
    | succ f =>
      have h0 : isUrlStart (c :: (pre ++ rest)) = false := hno 0 (by simp)
      have h1 := ih rest f (b ++ [c])
        (fun i hi => by simpa using hno (i + 1) (by simp; omega))
        (by simp at hf ⊢; omega)
      simp only [List.cons_append]
      rw [replaceLoop_step]
      simp only [h0, Bool.false_eq_true, if_false]
      rw [h1]

theorem dropWhile_run (p : Char → Bool) (t post : List Char) (ht : ∀ x ∈ t, p x = true)
    (hpost : post = [] ∨ ∃ c r, post = c :: r ∧ p c = false) :
    (t ++ post).dropWhile p = post := by
  induction t with
  | nil =>
    rcases hpost with hp | ⟨c, r, hp, hc⟩
    · simp [hp]
    · simp [hp, List.dropWhile, hc]
  | cons x t ih =>
    have hx : p x = true := ht x (List.mem_cons_self _ _)
    simp only [List.cons_append, List.dropWhile, hx]
    exact ih (fun y hy => ht y (List.mem_cons_of_mem _ hy))

theorem consumed_append (run post : List Char) : consumed (run ++ post) post = run := by
  simp [consumed]

theorem url_run (run post : List Char) (hstart : isUrlStart run = true)
    (hrun : ∀ c ∈ run, isJsSpace c = false)
    (hpost : post = [] ∨ ∃ c r, post = c :: r ∧ isJsSpace c = true) :
    isUrlStart (run ++ post) = true ∧ afterUrl (run ++ post) = post := by
  have hpost1 : post = [] ∨ ∃ c r, post = c :: r ∧ (fun x => !isJsSpace x) c = false := by
    rcases hpost with hp | ⟨c, r, hp, hc⟩
    · exact Or.inl hp
    · exact Or.inr ⟨c, r, hp, by simp [hc]⟩
  obtain ⟨c, t, hc, hs | hs⟩ := (isUrlStart_iff run).1 hstart
  · subst hs
    have ht : ∀ x ∈ t, (fun x => !isJsSpace x) x = true := by
      intro x hx
      have := hrun x (by simp [hx])
      simp [this]
    refine ⟨(isUrlStart_iff _).2 ⟨c, t ++ post, hc, Or.inl (by simp)⟩, ?_⟩
    rw [show "https://".data ++ c :: t ++ post = "https://".data ++ c :: (t ++ post) by simp,
      (afterUrl_eq c (t ++ post)).1]
    exact dropWhile_run _ t post ht hpost1
  · subst hs
    have ht : ∀ x ∈ t, (fun x => !isJsSpace x) x = true := by
      intro x hx
      have := hrun x (by simp [hx])
      simp [this]
    refine ⟨(isUrlStart_iff _).2 ⟨c, t ++ post, hc, Or.inr (by simp)⟩, ?_⟩
    rw [show "http://".data ++ c :: t ++ post = "http://".data ++ c :: (t ++ post) by simp,
      (afterUrl_eq c (t ++ post)).2]
    exact dropWhile_run _ t post ht hpost1

/-- C10 as stated fails. The text `http://` is a maximal run of characters
that are not white space starting at `http://`, and it is left as it is: the
expression asks for one more character. In `http://a,http://b` the run that
starts at the second `http://` is not replaced by an anchor of its own: it
lies inside the anchor written for the run that starts at the first. -/
theorem bare_scheme_and_inner_url_are_not_linked :
    "http://".data.all (fun c => !isJsSpace c) = true ∧
    Static.formatMessage (.str "http://") = .ok "http://" ∧
    "http://a,http://b".data.drop 9 = "http://b".data ∧
    isUrlStart "http://b".data = true ∧
    Static.formatMessage (.str "http://a,http://b")
      = .ok "<a href=\"http://a,http://b\" target=\"_blank\" rel=\"noopener\">http://a,http://b</a>" :=
  ⟨by decide, rfl, rfl, rfl, rfl⟩

/-- C10, amended: `formatMessage` gives any value that is not a string back as a
`TypeError`; a string in which no position starts a URL (`http://` or
`https://` directly followed by a character that is not white space) comes
back unchanged, markup included; and in a string whose first URL start is at
the end of `pre`, where `run` is the maximal run of characters that are not
white space from there, the result is `pre`, the anchor element whose `href`
and text are `run`, and the formatted rest of the string. -/
theorem formatMessage_links_urls_only :
    (∀ s : String, (∀ i, isUrlStart (s.data.drop i) = false) →
      Static.formatMessage (.str s) = .ok s) ∧
    (∀ pre run post : List Char,
      (∀ i, i < pre.length → isUrlStart ((pre ++ (run ++ post)).drop i) = false) →
      isUrlStart run = true → (∀ c ∈ run, isJsSpace c = false) →
      (post = [] ∨ ∃ c r, post = c :: r ∧ isJsSpace c = true) →
      Static.formatMessage (.str (String.mk (pre ++ (run ++ post))))
        = .ok (String.mk (pre ++ (anchor run ++ (Static.formatText (String.mk post)).data)))) := by
  refine ⟨?_, ?_⟩
  · intro s hno
    simp only [Static.formatMessage, Static.formatText, replaceAll]
    rw [replaceLoop_no_url s.data _ [] hno (by omega)]
  · intro pre run post hpre hstart hrun hpost
    obtain ⟨hs, ha⟩ := url_run run post hstart hrun hpost
    have hne : post.length < (run ++ post).length := by
      have hl := afterUrl_length _ hs
      rw [ha] at hl
      exact hl
    simp only [Static.formatMessage, Static.formatText, replaceAll]
    rw [replaceLoop_skip pre (run ++ post) _ [] hpre (by omega), replaceLoop_step]
    simp only [hs, if_true, ha, consumed_append]
    rw [replaceLoop_indep _ post _ (post.length + 1) [] hne (by omega)]

/-- C10, amended, at work: markup without a URL, and a URL between words. -/
theorem formatMessage_links_urls_only_witness :
    Static.formatMessage (.str "<b>hi</b>") = .ok "<b>hi</b>" ∧
    Static.formatMessage (.str (String.mk ("see ".data ++ ("http://a.b".data ++ " now".data))))
      = .ok (String.mk ("see ".data ++ (anchor "http://a.b".data ++
          (Static.formatText (String.mk " now".data)).data))) :=
  ⟨formatMessage_links_urls_only.1 "<b>hi</b>" (fun i => by
      by_cases hi : i < 9
      · interval_cases i <;> rfl
      · rw [List.drop_eq_nil_of_le (by simp; omega)]
        rfl),
   formatMessage_links_urls_only.2 "see ".data "http://a.b".data " now".data
    (fun i hi => by
      have hi4 : i < 4 := hi
      interval_cases i <;> rfl)
    rfl (by decide) (Or.inr ⟨' ', "now".data, rfl, rfl⟩)⟩


end MindBridge
